import Mathlib

/-!
Verification of the row-reconciliation scripts of the `stoloto.mts` repository.

The repository consists of Python scripts that reconcile rows of Excel
worksheets keyed by a business identifier.  This file gives a shallow
embedding of the value-level behaviour of the relevant functions of
`sync_xlsx.py`, `sync_master.py` and `sync_bd_source_to_target_terminals.py`
(the HTTP plumbing, cell styling and conditional-formatting rules are
value-irrelevant and are not modelled) and proves or refutes the claims
about them.
-/

namespace Stoloto

/-- A spreadsheet cell value as `openpyxl` delivers it: Python `None`,
a string, an integer or a boolean.  The scripts' own writes are strings,
integers and `None` only.  Floating-point cells are not modelled; the
numeric cells the scripts read and write are identifiers and 0/1 flags. -/
inductive Val where
  | none
  | str (s : String)
  | int (n : Int)
  | bool (b : Bool)
deriving DecidableEq, Repr

/-- Python `str(v)` on a cell value. -/
def pyStr : Val → String
  | Val.none => "None"
  | Val.str s => s
  | Val.int n => toString n
  | Val.bool b => if b then "True" else "False"

/-- Whitespace characters removed by Python `str.strip()` (the ASCII ones;
the scripts' data never carries the exotic Unicode spaces). -/
def isSpaceChar (c : Char) : Bool :=
  c = ' ' || c = '\t' || c = '\n' || c = '\r'

/-- Python `str.strip()`. -/
def pyStrip (s : String) : String :=
  String.mk (((s.data.dropWhile isSpaceChar).reverse.dropWhile isSpaceChar).reverse)

/-- Python `str.lower()` on one character, for the alphabets the scripts
use: ASCII `A`-`Z` and Cyrillic `А`-`Я`, `Ё`. -/
def pyLowerChar (c : Char) : Char :=
  if 'A' ≤ c ∧ c ≤ 'Z' then Char.ofNat (c.toNat + 32)
  else if 'А' ≤ c ∧ c ≤ 'Я' then Char.ofNat (c.toNat + 32)
  else if c = 'Ё' then 'ё'
  else c

/-- Python `str.lower()`. -/
def pyLower (s : String) : String :=
  String.mk (s.data.map pyLowerChar)

/-- The digit characters of a string, in order: Python
`"".join(ch for ch in s if ch.isdigit())`. -/
def digitsOnly (s : String) : String :=
  String.mk (s.data.filter Char.isDigit)

/-- Python `int(s)` on a non-empty all-digit string. -/
def strToNat (s : String) : Nat :=
  s.data.foldl (fun a c => a * 10 + (c.toNat - 48)) 0

/-- Python `str.zfill(w)` on an all-digit string (no sign handling needed:
the scripts only call it on digit strings). -/
def zfill (s : String) (w : Nat) : String :=
  String.mk (List.replicate (w - s.length) '0') ++ s

/-- Python `" ".join(parts)`. -/
def joinSpace : List String → String
  | [] => ""
  | [x] => x
  | x :: y :: t => x ++ " " ++ joinSpace (y :: t)

/-! ## Worksheet model

A worksheet is a row-major list of rows; spreadsheet row `r` (1-based) is
list index `r - 1`, likewise for columns.  Reading a missing cell yields
`Val.none` (as `openpyxl` does); writing past the current extent grows the
sheet. -/

abbrev Ws := List (List Val)

/-- `ws.cell(row=r, column=c).value`. -/
def cellValue (ws : Ws) (r c : Nat) : Val :=
  (ws.getD (r - 1) []).getD (c - 1) Val.none

/-- `ws.max_row`. -/
def wsMaxRow (ws : Ws) : Nat := ws.length

/-- `ws.max_column`: the width of the widest row. -/
def wsMaxCol (ws : Ws) : Nat :=
  ws.foldr (fun row m => max row.length m) 0

/-- Pad a list on the right to length at least `n`. -/
def padTo (l : List α) (n : Nat) (d : α) : List α :=
  l ++ List.replicate (n - l.length) d

/-- `ws.cell(row=r, column=c).value = v` (assignment), growing the sheet
with empty cells as `openpyxl` does. -/
def setCell (ws : Ws) (r c : Nat) (v : Val) : Ws :=
  let ws2 := padTo ws r []
  ws2.set (r - 1) ((padTo (ws2.getD (r - 1) []) c Val.none).set (c - 1) v)

/-- `is_empty_cell` (identical in the scripts, sometimes named `is_empty`):
`v is None or (isinstance(v, str) and v.strip() == "")`. -/
def is_empty_cell : Val → Bool
  | Val.none => true
  | Val.str s => pyStrip s = ""
  | _ => false

/-- `get_cell_str`: `"" if v is None else str(v).strip()`. -/
def get_cell_str (ws : Ws) (r c : Nat) : String :=
  match cellValue ws r c with
  | Val.none => ""
  | v => pyStrip (pyStr v)

/-- The entries of `header_index_map`: for each column `c` of row 1 whose
value is not `None` and whose stripped string form is non-empty, the pair
(column, name). -/
def headerNames (ws : Ws) : List (Nat × String) :=
  (List.range (wsMaxCol ws)).filterMap (fun i =>
    match cellValue ws 1 (i + 1) with
    | Val.none => Option.none
    | v =>
      let name := pyStrip (pyStr v)
      if name = "" then Option.none else some (i + 1, name))

/-- `header_index_map(ws)[name]`: the map assigns each name the last
column carrying it (later assignments overwrite earlier ones), `none`
when the name is absent. -/
def headerLookup (ws : Ws) (name : String) : Option Nat :=
  (((headerNames ws).filter (fun p => p.2 = name)).getLast?).map Prod.fst

/-- The loop body of `get_last_data_row`. -/
def ldrStep (ws : Ws) (key_col last r : Nat) : Nat :=
  if is_empty_cell (cellValue ws r key_col) then last else r

/-- `get_last_data_row(ws, key_col, start_row)`: the last row in
`range(start_row, ws.max_row + 1)` whose key cell is not empty,
initialised to 1. -/
def get_last_data_row (ws : Ws) (key_col : Nat) (start_row : Nat) : Nat :=
  (List.range' start_row (wsMaxRow ws + 1 - start_row)).foldl (ldrStep ws key_col) 1

/-! ## Insertion-ordered dictionaries (Python `dict`) -/

/-- `m[k]`, `m.get(k)`: the value of the first (hence, keys being
unique, the only) entry carrying `k`. -/
def dictGet (m : List (String × α)) (k : String) : Option α :=
  match m with
  | [] => Option.none
  | p :: t => if p.1 = k then some p.2 else dictGet t k

/-- `m[k] = v`: update in place when the key exists (keeping its
insertion position), append otherwise. -/
def dictSet (m : List (String × α)) (k : String) (v : α) : List (String × α) :=
  if m.any (fun p => p.1 = k) then
    m.map (fun p => if p.1 = k then (k, v) else p)
  else m ++ [(k, v)]

/-- `del m[k]`. -/
def dictDel (m : List (String × α)) (k : String) : List (String × α) :=
  m.filter (fun p => p.1 ≠ k)

/-! ## Terminal ranges (`sync_xlsx.py`) -/

/-- `parse_terminal_id`: keep the digits of `str(x)`; `None` when no digit
remains, the decimal value otherwise (the `int` conversion of a non-empty
digit string cannot fail, so the `except` branch is unreachable). -/
def parse_terminal_id (x : Val) : Option Int :=
  let s := digitsOnly (pyStr x)
  if s = "" then Option.none else some (strToNat s : Int)

/-- Insert an integer into a strictly ascending list, keeping it strictly
ascending: the building block of Python `sorted(set(nums))`. -/
def insertSorted (x : Int) : List Int → List Int
  | [] => [x]
  | y :: t =>
    if x < y then x :: y :: t
    else if x = y then y :: t
    else y :: insertSorted x t

/-- Python `sorted(set(nums))`: the distinct elements in ascending order. -/
def sortedDedup (nums : List Int) : List Int :=
  nums.foldl (fun acc n => insertSorted n acc) []

/-- The loop body of `compress_ranges`: scan the (strictly ascending)
remaining numbers, extending the run `start..prev` while the next number
is `prev + 1`, emitting `(start, prev)` whenever the sequence breaks, and
emitting the final run at the end. -/
def runsAux (start prev : Int) : List Int → List (Int × Int)
  | [] => [(start, prev)]
  | n :: rest =>
    if n = prev + 1 then runsAux start n rest
    else (start, prev) :: runsAux n n rest

/-- `compress_ranges(nums)`: empty input yields `[]` (the explicit
`if not nums` guard of the Python code coincides with the empty sort). -/
def compress_ranges (nums : List Int) : List (Int × Int) :=
  match sortedDedup nums with
  | [] => []
  | x :: rest => runsAux x x rest

/-- One range of `format_ranges`: `(a)` when the bounds agree, otherwise
`(a–b)` with an en dash. -/
def format_one (p : Int × Int) : String :=
  if p.1 = p.2 then "(" ++ toString p.1 ++ ")"
  else "(" ++ toString p.1 ++ "–" ++ toString p.2 ++ ")"

/-- `format_ranges(ranges)`: the rendered ranges joined by single spaces. -/
def format_ranges (ranges : List (Int × Int)) : String :=
  joinSpace (ranges.map format_one)

/-! ## Normalizers -/

/-- The recognised true-valued strings of `normalize_bool_to_01`. -/
def TRUE_STRINGS : List String := ["true", "истина", "да", "yes", "y", "1"]

/-- The recognised false-valued strings of `normalize_bool_to_01`. -/
def FALSE_STRINGS : List String := ["false", "ложь", "нет", "no", "n", "0"]

/-- The string fallback of `normalize_bool_to_01`:
`s = str(v).strip().lower()`, empty yields `None`, then the two
recognised token sets, anything else `None`. -/
def normalize_bool_fallback (v : Val) : Option Int :=
  let s := pyLower (pyStrip (pyStr v))
  if s = "" then Option.none
  else if TRUE_STRINGS.contains s then some 1
  else if FALSE_STRINGS.contains s then some 0
  else Option.none

/-- `normalize_bool_to_01` (identical in `sync_xlsx.py`,
`sync_bools_source_to_target.py` and `sync_mts_target_to_source.py`):
`None` passes through, native booleans map to 1/0, numeric 0/1 map to
themselves, any other value falls back to string recognition. -/
def normalize_bool_to_01 (v : Val) : Option Int :=
  match v with
  | Val.none => Option.none
  | Val.bool b => some (if b then 1 else 0)
  | Val.int n =>
    if n = 1 then some 1
    else if n = 0 then some 0
    else normalize_bool_fallback v
  | Val.str _ => normalize_bool_fallback v

/-- `normalize_mts_id` of `sync_master.py`: `None` yields `""`; otherwise
take `s = str(value)` and its digits; when there is no digit or more than
nine of them the ORIGINAL string `s` is returned (non-digits included),
otherwise the digits zero-padded to width nine. -/
def SyncMaster.normalize_mts_id (value : Val) : String :=
  match value with
  | Val.none => ""
  | v =>
    let s := pyStr v
    let digits := digitsOnly s
    if digits = "" ∨ digits.length > 9 then s else zfill digits 9

/-- `normalize_mts_id` of `sync_bd_source_to_target_terminals.py`:
`None` or blank yields `""`; otherwise the digits of the stripped string,
returned as-is when empty or longer than nine, zero-padded to width nine
otherwise. -/
def SyncBd.normalize_mts_id (value : Val) : String :=
  match value with
  | Val.none => ""
  | v =>
    let s := pyStrip (pyStr v)
    if s = "" then ""
    else
      let digits := digitsOnly s
      if digits = "" then ""
      else if digits.length > 9 then digits
      else zfill digits 9

/-- The fixed exception phrase of `sync_bd_source_to_target_terminals.py`
(`CERT_OK_PHRASE`), already lowercase in the source. -/
def CERT_OK_PHRASE : String := "есть все, но со стороны мтс нет сертификата"

/-- Python `"" if v is None else str(v)`, the comment text read by
`cert_value_from_bd_comment`. -/
def commentStr : Val → String
  | Val.none => ""
  | v => pyStr v

/-- `cert_value_from_bd_comment`: 1 when the stripped lowercased comment
is empty or equals the fixed exception phrase, 0 otherwise. -/
def cert_value_from_bd_comment (v : Val) : Int :=
  let s := pyLower (pyStrip (commentStr v))
  if s = "" then 1
  else if s = CERT_OK_PHRASE then 1
  else 0

/-- Whether an `Except` value is a success. -/
def exceptIsOk : Except ε α → Bool
  | Except.ok _ => true
  | Except.error _ => false

/-! ## `sync_xlsx.py`: `sync_inside_workbook`

The value-level behaviour of the reconciliation inside the SOURCE
workbook.  Cell styling (`copy_row_style`, column widths), conditional
formatting and logging do not touch cell values and are not modelled.
A workbook is the list of its sheets keyed by name. -/

namespace SyncXlsx

abbrev Wb := List (String × Ws)

def SHEET_BD : String := "БД"

def SHEET_SVOD : String := "СВОДНАЯ"

def SVOD_BOOL_COLS : List String :=
  ["Добавлен сертификат", "Добавлен сертификат (МТС)", "Билеты продаются"]

def SVOD_REQUIRED_BASE : List String :=
  ["ЮЛ", "МТС ID", "Terminal ID (Столото)", "Агент ID (Столото)", "GUID",
   "Ответственный ССПС"]

def BD_REQUIRED : List String :=
  ["ЮЛ", "МТС ID", "Terminal ID (Столото)", "Агент ID (Столото)", "GUID",
   "Ответственный ССПС"]

/-- `ensure_columns_at_end(ws, needed)` at value level: walk `needed`, and
append each name that the (growing) header map does not yet carry as a new
header cell after the last occupied column (header styling and column
widths are presentation-only and not modelled). -/
def ensure_columns_at_end (ws : Ws) (needed : List String) : Ws :=
  (needed.foldl
    (fun (st : Ws × List String × Nat) name =>
      if st.2.1.contains name then st
      else (setCell st.1 1 (st.2.2 + 1) (Val.str name),
            st.2.1 ++ [name], st.2.2 + 1))
    (ws, (headerNames ws).map Prod.snd, wsMaxCol ws)).1

/-- The deletion condition of `delete_missing_agents`:
`agent and agent not in agents_in_bd` for the stripped agent cell. -/
def deleteCond (ws : Ws) (agent_col : Nat) (agents_in_bd : List String) (r : Nat) : Bool :=
  get_cell_str ws r agent_col != "" &&
    !agents_in_bd.contains (get_cell_str ws r agent_col)

/-- The `to_delete` list of `delete_missing_agents`: the rows
`2 .. last_data` whose stripped agent cell is non-empty and absent from
`agents_in_bd`, in ascending order. -/
def deleteCandidates (ws : Ws) (agent_col : Nat) (agents_in_bd : List String) : List Nat :=
  (List.range' 2 (get_last_data_row ws agent_col 2 - 1)).filter
    (deleteCond ws agent_col agents_in_bd)

/-- `ws.delete_rows(r, 1)`. -/
def delete_rows (ws : Ws) (r : Nat) : Ws := ws.eraseIdx (r - 1)

/-- `delete_missing_agents`: collect the candidate rows in ascending
order, then delete them one by one in reversed (descending) order,
returning the sheet and the number of deleted rows. -/
def delete_missing_agents (ws : Ws) (agent_col : Nat) (agents_in_bd : List String) :
    Ws × Nat :=
  if get_last_data_row ws agent_col 2 < 2 then (ws, 0)
  else
    ((deleteCandidates ws agent_col agents_in_bd).reverse.foldl
      (fun acc r => delete_rows acc r) ws,
     (deleteCandidates ws agent_col agents_in_bd).length)

/-- The accumulator of the БД scan of `sync_inside_workbook`:
`bd_by_agent` (agent to payload, a dict over the `BD_REQUIRED` column
names), `terminals_by_agent` and the set `agents_in_bd` (modelled as its
insertion-ordered support; only membership is ever used). -/
structure BdScan where
  bd_by_agent : List (String × List (String × String))
  terminals_by_agent : List (String × List Int)
  agents_in_bd : List String
deriving Repr, DecidableEq

/-- One iteration (one БД row) of the scan loop of
`sync_inside_workbook`: skip the row when the stripped agent cell is
empty; otherwise record the agent, append its parsed terminal id if any,
and fill each still-empty payload field with the row's non-empty value
(first-seen wins). -/
def bdScanStep (ws_bd : Ws) (agent_col_bd terminal_col_bd : Nat)
    (st : BdScan) (r : Nat) : BdScan :=
  let agent := get_cell_str ws_bd r agent_col_bd
  if agent = "" then st
  else
    let agents :=
      if st.agents_in_bd.contains agent then st.agents_in_bd
      else st.agents_in_bd ++ [agent]
    let term_raw := cellValue ws_bd r terminal_col_bd
    let term_num :=
      if term_raw = Val.none then Option.none else parse_terminal_id term_raw
    let terms :=
      match term_num with
      | some n =>
        dictSet st.terminals_by_agent agent
          ((dictGet st.terminals_by_agent agent).getD [] ++ [n])
      | Option.none => st.terminals_by_agent
    let payload0 :=
      (dictGet st.bd_by_agent agent).getD (BD_REQUIRED.map (fun k => (k, "")))
    let payload := BD_REQUIRED.foldl
      (fun p col_name =>
        let val := get_cell_str ws_bd r ((headerLookup ws_bd col_name).getD 1)
        if (dictGet p col_name).getD "" = "" ∧ val ≠ "" then
          dictSet p col_name val
        else p)
      payload0
    { bd_by_agent := dictSet st.bd_by_agent agent payload,
      terminals_by_agent := terms,
      agents_in_bd := agents }

/-- The БД scan loop over rows `2 .. max_row`. -/
def bdScan (ws_bd : Ws) (agent_col_bd terminal_col_bd : Nat) : BdScan :=
  (List.range' 2 (wsMaxRow ws_bd + 1 - 2)).foldl
    (bdScanStep ws_bd agent_col_bd terminal_col_bd) ⟨[], [], []⟩

/-- The loop replacing each agent's `Terminal ID (Столото)` payload field
with the rendered compressed ranges of its collected terminal ids (the
`none` branch is unreachable: every agent with terminals is in
`bd_by_agent`). -/
def applyTerminalRanges (scan : BdScan) : List (String × List (String × String)) :=
  scan.terminals_by_agent.foldl
    (fun m p =>
      match dictGet m p.1 with
      | some payload =>
        dictSet m p.1
          (dictSet payload "Terminal ID (Столото)"
            (format_ranges (compress_ranges p.2)))
      | Option.none => m)
    scan.bd_by_agent

/-- `existing_row_by_agent`: scan rows `2 .. last_data_row` of СВОДНАЯ,
recording each non-empty stripped agent with its row (a later duplicate
overwrites an earlier one). -/
def existingRowsByAgent (ws : Ws) (agent_col last_data_row : Nat) :
    List (String × Nat) :=
  if last_data_row ≥ 2 then
    (List.range' 2 (last_data_row - 1)).foldl
      (fun m r =>
        let agent := get_cell_str ws r agent_col
        if agent = "" then m else dictSet m agent r)
      []
  else []

/-- The accumulator of the upsert loop of `sync_inside_workbook`. -/
structure UpsertState where
  ws : Ws
  inserted : Nat
  updated : Nat
  append_row : Nat
deriving Repr, DecidableEq

/-- One iteration (one `bd_by_agent` item) of the upsert loop: a matched
agent has its existing row's base columns overwritten with the payload and
counts as updated unconditionally; an unmatched agent is appended at
`append_row` with the payload in the base columns and 0 in every derived
boolean column. -/
def upsertStep (svCol : String → Nat) (existing : List (String × Nat))
    (st : UpsertState) (item : String × List (String × String)) : UpsertState :=
  match dictGet existing item.1 with
  | some rr =>
    { st with
      ws := SVOD_REQUIRED_BASE.foldl
        (fun w col_name =>
          setCell w rr (svCol col_name) (Val.str ((dictGet item.2 col_name).getD "")))
        st.ws,
      updated := st.updated + 1 }
  | Option.none =>
    let rr := st.append_row
    let w1 := SVOD_REQUIRED_BASE.foldl
      (fun w col_name =>
        setCell w rr (svCol col_name) (Val.str ((dictGet item.2 col_name).getD "")))
      st.ws
    let w2 := SVOD_BOOL_COLS.foldl
      (fun w col_name => setCell w rr (svCol col_name) (Val.int 0)) w1
    { ws := w2, inserted := st.inserted + 1, updated := st.updated,
      append_row := rr + 1 }

/-- One cell of the 0/1 normalization pass: empty cells and cells whose
value `normalize_bool_to_01` does not recognise are left untouched;
recognised values are rewritten as the integer 0 or 1. -/
def normalizeCellStep (w : Ws) (r c : Nat) : Ws :=
  let v := cellValue w r c
  if is_empty_cell v then w
  else
    match normalize_bool_to_01 v with
    | Option.none => w
    | some norm => setCell w r c (Val.int norm)

/-- The 0/1 normalization pass over the derived boolean columns, rows
`2 .. last_data_row`. -/
def normalizeBoolPass (svCol : String → Nat) (last_data_row : Nat) (ws : Ws) : Ws :=
  SVOD_BOOL_COLS.foldl
    (fun w col_name =>
      (List.range' 2 (last_data_row - 1)).foldl
        (fun w2 r => normalizeCellStep w2 r (svCol col_name)) w)
    ws

/-- The success counters logged by `sync_inside_workbook`. -/
structure Stats where
  inserted : Nat
  updated : Nat
  deleted : Nat
deriving Repr, DecidableEq

/-- The required-column check against the БД header. -/
def missingBdColumns (ws_bd : Ws) : List String :=
  BD_REQUIRED.filter (fun c => (headerLookup ws_bd c).isNone)

/-- The required-column check against the СВОДНАЯ header. -/
def missingSvodColumns (ws : Ws) : List String :=
  SVOD_REQUIRED_BASE.filter (fun c => (headerLookup ws c).isNone)

/-- The post-check body of `sync_inside_workbook`: БД scan, terminal
range formatting, deletion of vanished agents, upsert, 0/1
normalization.  `ws_bd` and `ws_svod` are the two sheets, `ws_svod`
already carrying the ensured boolean columns. -/
def sync_inside_core (wb : Wb) (ws_bd ws_svod : Ws) : Wb × Except String Stats :=
  let agent_col_bd := (headerLookup ws_bd "Агент ID (Столото)").getD 1
  let terminal_col_bd := (headerLookup ws_bd "Terminal ID (Столото)").getD 1
  let scan := bdScan ws_bd agent_col_bd terminal_col_bd
  let bd_by_agent := applyTerminalRanges scan
  let agent_col_sv0 := (headerLookup ws_svod "Агент ID (Столото)").getD 1
  let del := delete_missing_agents ws_svod agent_col_sv0 scan.agents_in_bd
  let ws_svod2 := del.1
  let svCol := fun name => (headerLookup ws_svod2 name).getD 1
  let agent_col_sv := svCol "Агент ID (Столото)"
  let last_data_row := get_last_data_row ws_svod2 agent_col_sv 2
  let existing := existingRowsByAgent ws_svod2 agent_col_sv last_data_row
  let append_row := if last_data_row ≥ 2 then last_data_row + 1 else 2
  let up := bd_by_agent.foldl (upsertStep svCol existing)
    ⟨ws_svod2, 0, 0, append_row⟩
  let last_data_row2 := get_last_data_row up.ws agent_col_sv 2
  let ws_final := normalizeBoolPass svCol last_data_row2 up.ws
  (dictSet wb SHEET_SVOD ws_final, Except.ok ⟨up.inserted, up.updated, del.2⟩)

/-- `sync_inside_workbook` at value level.  The result pairs the final
in-memory workbook with the outcome: on an error path the workbook
reflects every mutation performed before the exception was raised (the
caller uploads nothing in that case; note `ensure_columns_at_end` runs
BEFORE the required-column checks), on success it carries the reconciled
СВОДНАЯ sheet and the counters. -/
def sync_inside_workbook (wb : Wb) : Wb × Except String Stats :=
  if (dictGet wb SHEET_BD).isNone then
    (wb, Except.error "Source: sheet БД not found")
  else if (dictGet wb SHEET_SVOD).isNone then
    (wb, Except.error "Target: sheet СВОДНАЯ not found")
  else
    let ws_bd := (dictGet wb SHEET_BD).getD []
    let ws_svod := ensure_columns_at_end ((dictGet wb SHEET_SVOD).getD []) SVOD_BOOL_COLS
    if missingBdColumns ws_bd ≠ [] then
      (dictSet wb SHEET_SVOD ws_svod,
       Except.error ("Missing columns in БД: " ++ joinSpace (missingBdColumns ws_bd)))
    else if missingSvodColumns ws_svod ≠ [] then
      (dictSet wb SHEET_SVOD ws_svod,
       Except.error ("Missing columns in СВОДНАЯ: " ++
         joinSpace (missingSvodColumns ws_svod)))
    else sync_inside_core wb ws_bd ws_svod

end SyncXlsx

/-! ## `sync_master.py`: `main`

The value-level behaviour of the reconciliation of `sync_master.py`
(download/upload omitted): build the keyed source map, scan the target,
decide update/clear per matched target row, apply clears, apply updates,
insert the residual source rows from the first empty row on. -/

namespace SyncMaster

def CONFIG_columns : List String :=
  ["ЮЛ", "МТС ID", "Terminal ID (Столото)", "Агент ID (Столото)", "GUID",
   "Ответственный ССПС"]

def agentIdColumn : String := "Агент ID (Столото)"

def sourceSheet : String := "БД"

def targetSheet : String := "СВОДНАЯ"

def dataStartRow : Nat := 2

/-- `sheet_headers(ws, 1)`: the raw row-1 values with `None` replaced by
the empty string (no stripping, no string conversion). -/
def sheet_headers (ws : Ws) : List Val :=
  (List.range (wsMaxCol ws)).map (fun i =>
    match cellValue ws 1 (i + 1) with
    | Val.none => Val.str ""
    | v => v)

/-- Python `headers.index(name)` / `name in headers`: the first position
holding exactly the string `name` (a string never equals a non-string
value). -/
def indexOfVal (headers : List Val) (name : String) : Option Nat :=
  headers.findIdx? (fun v => v = Val.str name)

/-- `get_col_indexes(headers, needed)`: the 0-based positions of the
needed names, failing on the first missing one. -/
def get_col_indexes (headers : List Val) (needed : List String) :
    Except String (List Nat) :=
  needed.foldl
    (fun acc name =>
      match acc with
      | Except.error e => Except.error e
      | Except.ok idx =>
        match indexOfVal headers name with
        | some i => Except.ok (idx ++ [i])
        | Option.none => Except.error ("Не найдена колонка: " ++ name))
    (Except.ok [])

/-- `row_is_empty`: every value is `None` or has empty (unstripped)
string form. -/
def row_is_empty (vs : List Val) : Bool :=
  vs.all (fun v => v = Val.none || pyStr v == "")

/-- The row list `[ws.cell(row=r, column=c+1).value for c in range(ncols)]`. -/
def readRow (ws : Ws) (r ncols : Nat) : List Val :=
  (List.range ncols).map (fun c => cellValue ws r (c + 1))

/-- One iteration of the source scan of `sync_master.main`: skip the row
when the agent cell is `None` or its UNSTRIPPED string form is empty
(whitespace-only keys are treated as real keys); first-seen wins on
duplicate keys; the МТС ID field of the stored row data is normalized. -/
def sourceMapStep (src_ws : Ws) (ncols : Nat) (src_idx : List Nat)
    (agent_src_i mts_pos : Nat)
    (m : List (String × List Val)) (r : Nat) : List (String × List Val) :=
  let row := readRow src_ws r ncols
  let agent_id := row.getD agent_src_i Val.none
  if agent_id = Val.none || pyStr agent_id == "" then m
  else
    let key := pyStr agent_id
    if (dictGet m key).isSome then m
    else
      let row_data := src_idx.map (fun i => row.getD i Val.none)
      let row_data2 := row_data.set mts_pos
        (Val.str (normalize_mts_id (row_data.getD mts_pos Val.none)))
      m ++ [(key, row_data2)]

/-- The source scan loop (`source_map`). -/
def buildSourceMap (src_ws : Ws) (ncols : Nat) (src_idx : List Nat)
    (agent_src_i mts_pos : Nat) : List (String × List Val) :=
  (List.range' dataStartRow (wsMaxRow src_ws + 1 - dataStartRow)).foldl
    (sourceMapStep src_ws ncols src_idx agent_src_i mts_pos) []

/-- One iteration of the target scan (`existing_agent_rows`): a later row
with the same key overwrites the recorded row. -/
def targetRowsStep (tgt_ws : Ws) (ncols agent_tgt_i : Nat)
    (m : List (String × Nat)) (r : Nat) : List (String × Nat) :=
  let row := readRow tgt_ws r ncols
  let agent_id := row.getD agent_tgt_i Val.none
  if agent_id = Val.none || pyStr agent_id == "" then m
  else dictSet m (pyStr agent_id) r

/-- The target scan loop (`existing_agent_rows`). -/
def scanTargetRows (tgt_ws : Ws) (ncols agent_tgt_i : Nat) :
    List (String × Nat) :=
  (List.range' dataStartRow (wsMaxRow tgt_ws + 1 - dataStartRow)).foldl
    (targetRowsStep tgt_ws ncols agent_tgt_i) []

/-- The per-row comparison of `sync_master.main`:
`all(str(current[i]) == str(src_row_data[i]) for i in range(len(tgt_idx)))`. -/
def rowSame (tgt_ws : Ws) (tgt_idx : List Nat) (r : Nat)
    (src_row_data : List Val) : Bool :=
  (List.range tgt_idx.length).all (fun i =>
    pyStr (cellValue tgt_ws r (tgt_idx.getD i 0 + 1)) ==
      pyStr (src_row_data.getD i Val.none))

/-- The outcome of the update/clear decision loop: target rows to
overwrite (with their source data), target rows to clear, and the
source-map residue whose keys matched no target row. -/
structure Decision where
  updates : List (Nat × List Val)
  clears : List Nat
  residual : List (String × List Val)
deriving Repr, DecidableEq

/-- One iteration (one `existing_agent_rows` item) of the decision loop:
a matched row is appended to `updates` only when some column differs
under string comparison, and its key is removed from the source map; an
unmatched row is appended to `clears`. -/
def decideStep (tgt_ws : Ws) (tgt_idx : List Nat) (acc : Decision)
    (p : String × Nat) : Decision :=
  match dictGet acc.residual p.1 with
  | some src_row_data =>
    if rowSame tgt_ws tgt_idx p.2 src_row_data then
      { acc with residual := dictDel acc.residual p.1 }
    else
      { acc with
        updates := acc.updates ++ [(p.2, src_row_data)]
        residual := dictDel acc.residual p.1 }
  | Option.none => { acc with clears := acc.clears ++ [p.2] }

/-- The decision loop over the matched/unmatched target rows. -/
def decideUpdates (tgt_ws : Ws) (tgt_idx : List Nat)
    (existing : List (String × Nat)) (source_map : List (String × List Val)) :
    Decision :=
  existing.foldl (decideStep tgt_ws tgt_idx) ⟨[], [], source_map⟩

/-- Step 4 of `sync_master.main`: blank the synchronized columns of every
cleared row. -/
def applyClears (tgt_ws : Ws) (tgt_idx : List Nat) (clears : List Nat) : Ws :=
  clears.foldl
    (fun w r => tgt_idx.foldl (fun w2 ci => setCell w2 r (ci + 1) Val.none) w)
    tgt_ws

/-- Write one source row into target row `r` at the synchronized columns,
normalizing the МТС ID field again on write (as steps 5 and 6 do). -/
def writeRowData (tgt_idx : List Nat) (r : Nat) (data : List Val) (w : Ws) : Ws :=
  tgt_idx.enum.foldl
    (fun w2 q =>
      let val := data.getD q.1 Val.none
      let val2 :=
        if CONFIG_columns.getD q.1 "" = "МТС ID" then
          Val.str (normalize_mts_id val)
        else val
      setCell w2 r (q.2 + 1) val2)
    w

/-- Step 5 of `sync_master.main`: overwrite every updated row. -/
def applyUpdates (tgt_ws : Ws) (tgt_idx : List Nat)
    (updates : List (Nat × List Val)) : Ws :=
  updates.foldl (fun w p => writeRowData tgt_idx p.1 p.2 w) tgt_ws

/-- `find_first_empty()`: the first row in
`range(start, max_row + 2)` whose synchronized columns are all empty,
defaulting to `max_row + 1` (evaluated on the target as already mutated
by steps 4 and 5). -/
def find_first_empty (tgt_ws : Ws) (tgt_idx : List Nat) : Nat :=
  match (List.range' dataStartRow (wsMaxRow tgt_ws + 2 - dataStartRow)).find?
      (fun r => row_is_empty (tgt_idx.map (fun i => cellValue tgt_ws r (i + 1)))) with
  | some r => r
  | Option.none => wsMaxRow tgt_ws + 1

/-- Step 6 of `sync_master.main`: write each residual source row at
consecutive rows starting from the first empty row, counting insertions. -/
def applyInserts (tgt_ws : Ws) (tgt_idx : List Nat)
    (residual : List (String × List Val)) : Ws × Nat :=
  let st := residual.foldl
    (fun (st : Ws × Nat × Nat) item =>
      (writeRowData tgt_idx st.2.1 item.2 st.1, st.2.1 + 1, st.2.2 + 1))
    (tgt_ws, find_first_empty tgt_ws tgt_idx, 0)
  (st.1, st.2.2)

/-- The final target sheet and the counters logged by `sync_master.main`. -/
structure MasterResult where
  tgt : Ws
  cleared : Nat
  updated : Nat
  inserted : Nat
deriving Repr, DecidableEq

/-- Steps 2 to 6 of `sync_master.main` on the two already-selected
sheets.  The column checks (`get_col_indexes`) run before any write: on
their error path the function returns the error and no target sheet. -/
def master_core (src_ws tgt_ws : Ws) : Except String MasterResult :=
  let src_headers := sheet_headers src_ws
  let tgt_headers := sheet_headers tgt_ws
  match get_col_indexes src_headers CONFIG_columns with
  | Except.error e => Except.error e
  | Except.ok src_idx =>
    match get_col_indexes tgt_headers CONFIG_columns with
    | Except.error e => Except.error e
    | Except.ok tgt_idx =>
      let agent_src_i := (indexOfVal src_headers agentIdColumn).getD 0
      let agent_tgt_i := (indexOfVal tgt_headers agentIdColumn).getD 0
      let mts_pos := (CONFIG_columns.findIdx? (fun n => n = "МТС ID")).getD 0
      let source_map :=
        buildSourceMap src_ws src_headers.length src_idx agent_src_i mts_pos
      let existing := scanTargetRows tgt_ws tgt_headers.length agent_tgt_i
      let dec := decideUpdates tgt_ws tgt_idx existing source_map
      let w1 := applyClears tgt_ws tgt_idx dec.clears
      let w2 := applyUpdates w1 tgt_idx dec.updates
      let ins := applyInserts w2 tgt_idx dec.residual
      Except.ok ⟨ins.1, dec.clears.length, dec.updates.length, ins.2⟩

/-- `sync_master.main` with the sheet-existence checks (the surrounding
download/upload is plumbing; the target workbook is saved and uploaded
only on the success path). -/
def master_main (src_wb tgt_wb : SyncXlsx.Wb) : Except String MasterResult :=
  if (dictGet src_wb sourceSheet).isNone then
    Except.error "Нет листа БД в источнике"
  else if (dictGet tgt_wb targetSheet).isNone then
    Except.error "Нет листа СВОДНАЯ в цели"
  else
    master_core ((dictGet src_wb sourceSheet).getD [])
      ((dictGet tgt_wb targetSheet).getD [])

end SyncMaster

/-! ## Specification-side helper definitions -/

/-- The stripped string form of the key cell of one row list at (1-based)
column `c`: the row-local counterpart of `get_cell_str`. -/
def rowKeyStr (row : List Val) (c : Nat) : String :=
  match row.getD (c - 1) Val.none with
  | Val.none => ""
  | v => pyStrip (pyStr v)

/-- The rows `delete_missing_agents` keeps: key empty after stripping, or
key present in the source agent set. -/
def keepRow (c : Nat) (A : List String) (row : List Val) : Bool :=
  rowKeyStr row c == "" || A.contains (rowKeyStr row c)

/-- The states a derived-boolean cell may be in after the 0/1
normalization pass, relative to its value `orig` before the pass: the
integers 0 and 1, genuinely empty, or its prior value unchanged. -/
def boolCellOk (orig v : Val) : Prop :=
  v = Val.int 0 ∨ v = Val.int 1 ∨ is_empty_cell v = true ∨ v = orig

/-- Remove from a list the elements whose (running, starting at `j`)
0-based position belongs to `is`: the specification of deleting a set of
positions. -/
def removeIdxsAux (is : List Nat) : Nat → List α → List α
  | _, [] => []
  | j, a :: t =>
    if j ∈ is then removeIdxsAux is (j + 1) t
    else a :: removeIdxsAux is (j + 1) t

/-! ## Concrete workbooks used by the counterexamples and witnesses -/

/-- The six-column header shared by БД and СВОДНАЯ in the concrete
workbooks below. -/
def hdrBase : List Val :=
  [Val.str "ЮЛ", Val.str "МТС ID", Val.str "Terminal ID (Столото)",
   Val.str "Агент ID (Столото)", Val.str "GUID", Val.str "Ответственный ССПС"]

/-- The СВОДНАЯ header: the base columns followed by the three derived
boolean columns. -/
def hdrSvod : List Val :=
  hdrBase ++
    [Val.str "Добавлен сертификат", Val.str "Добавлен сертификат (МТС)",
     Val.str "Билеты продаются"]

/-- A БД data row for agent `A` with terminal 5. -/
def bdRowA : List Val :=
  [Val.str "X", Val.str "M", Val.str "5", Val.str "A", Val.str "G", Val.str "O"]

/-- A СВОДНАЯ data row for agent `A` that already equals the payload the
БД row produces (terminal rendered as `(5)`), with 0/1 boolean cells. -/
def svodRowA : List Val :=
  [Val.str "X", Val.str "M", Val.str "(5)", Val.str "A", Val.str "G",
   Val.str "O", Val.int 1, Val.int 0, Val.int 1]

/-- A workbook whose single БД agent matches the single СВОДНАЯ row with
identical base-column values. -/
def wbEqual : SyncXlsx.Wb :=
  [(SyncXlsx.SHEET_BD, [hdrBase, bdRowA]),
   (SyncXlsx.SHEET_SVOD, [hdrSvod, svodRowA])]

/-- Like `wbEqual` but the matched row's `Добавлен сертификат` cell holds
the unrecognisable text `junk`. -/
def svodRowJunk : List Val :=
  [Val.str "X", Val.str "M", Val.str "(5)", Val.str "A", Val.str "G",
   Val.str "O", Val.str "junk", Val.int 0, Val.int 1]

/-- The workbook with the `junk` boolean cell. -/
def wbJunk : SyncXlsx.Wb :=
  [(SyncXlsx.SHEET_BD, [hdrBase, bdRowA]),
   (SyncXlsx.SHEET_SVOD, [hdrSvod, [Val.str "X", Val.str "M", Val.str "(5)",
     Val.str "A", Val.str "G", Val.str "O", Val.str "junk", Val.int 0,
     Val.int 1]])]

/-- A workbook whose СВОДНАЯ sheet lacks the required base columns (only
the agent column is present) while БД is complete: `sync_inside_workbook`
appends the boolean headers to СВОДНАЯ before noticing the missing
required columns. -/
def wbMissing : SyncXlsx.Wb :=
  [(SyncXlsx.SHEET_BD, [hdrBase]),
   (SyncXlsx.SHEET_SVOD, [[Val.str "Агент ID (Столото)"]])]

/-- A source workbook for `sync_master.py` whose single data row has the
whitespace-only agent key `" "`. -/
def wbMasterSrcWs : SyncXlsx.Wb :=
  [(SyncMaster.sourceSheet,
    [hdrBase, [Val.str "x", Val.str "1", Val.str "5", Val.str " ",
      Val.str "g", Val.str "o"]])]

/-- An empty-bodied target workbook for `sync_master.py`. -/
def wbMasterTgtEmpty : SyncXlsx.Wb := [(SyncMaster.targetSheet, [hdrBase])]

/-- The `inserted` counter of a `sync_master.py` run, when it succeeded. -/
def masterInserted : Except String SyncMaster.MasterResult → Option Nat
  | Except.ok r => some r.inserted
  | Except.error _ => Option.none

/-! ## Lemmas: sorted deduplication (`sorted(set(nums))`) -/

theorem insertSorted_mem (x a : Int) :
    ∀ l : List Int, a ∈ insertSorted x l ↔ a = x ∨ a ∈ l := by
  intro l
  induction l with
  | nil => simp [insertSorted]
  | cons y t ih =>
    simp only [insertSorted]
    by_cases h1 : x < y
    · rw [if_pos h1]
      simp only [List.mem_cons]
    · rw [if_neg h1]
      by_cases h2 : x = y
      · rw [if_pos h2]
        subst h2
        simp only [List.mem_cons]
        tauto
      · rw [if_neg h2]
        simp only [List.mem_cons, ih]
        tauto

theorem insertSorted_pairwise (x : Int) :
    ∀ l : List Int, l.Pairwise (· < ·) → (insertSorted x l).Pairwise (· < ·) := by
  intro l
  induction l with
  | nil => intro _; simp [insertSorted]
  | cons y t ih =>
    intro hp
    rcases List.pairwise_cons.1 hp with ⟨hy, ht⟩
    by_cases h1 : x < y
    · simp only [insertSorted, if_pos h1]
      refine List.pairwise_cons.2 ⟨?_, hp⟩
      intro m hm
      rcases List.mem_cons.1 hm with rfl | hm
      · exact h1
      · exact lt_trans h1 (hy m hm)
    · by_cases h2 : x = y
      · subst h2
        simpa [insertSorted, if_neg h1] using hp
      · simp only [insertSorted, if_neg h1, if_neg h2]
        refine List.pairwise_cons.2 ⟨?_, ih ht⟩
        intro m hm
        rcases (insertSorted_mem x m t).1 hm with rfl | hm
        · omega
        · exact hy m hm

theorem sortedDedup_core_pairwise :
    ∀ (nums acc : List Int), acc.Pairwise (· < ·) →
      (nums.foldl (fun acc n => insertSorted n acc) acc).Pairwise (· < ·) := by
  intro nums
  induction nums with
  | nil => intro acc h; exact h
  | cons n t ih => intro acc h; exact ih _ (insertSorted_pairwise n acc h)

theorem sortedDedup_core_mem (a : Int) :
    ∀ (nums acc : List Int),
      a ∈ nums.foldl (fun acc n => insertSorted n acc) acc ↔ a ∈ nums ∨ a ∈ acc := by
  intro nums
  induction nums with
  | nil => intro acc; simp
  | cons n t ih =>
    intro acc
    rw [List.foldl_cons, ih, insertSorted_mem]
    simp only [List.mem_cons]
    tauto

theorem sortedDedup_pairwise (nums : List Int) :
    (sortedDedup nums).Pairwise (· < ·) :=
  sortedDedup_core_pairwise nums [] List.Pairwise.nil

theorem sortedDedup_mem (nums : List Int) (a : Int) :
    a ∈ sortedDedup nums ↔ a ∈ nums := by
  unfold sortedDedup
  rw [sortedDedup_core_mem]
  simp

/-! ## Lemmas: the greedy run loop of `compress_ranges` -/

theorem runsAux_head (start : Int) :
    ∀ (l : List Int) (prev : Int), ∃ b t, runsAux start prev l = (start, b) :: t := by
  intro l
  induction l with
  | nil => intro prev; exact ⟨prev, [], rfl⟩
  | cons n rest ih =>
    intro prev
    by_cases h : n = prev + 1
    · simpa only [runsAux, if_pos h] using ih n
    · exact ⟨prev, runsAux n n rest, by simp [runsAux, if_neg h]⟩

theorem runsAux_fst_le_snd :
    ∀ (l : List Int) (start prev : Int), start ≤ prev → l.Pairwise (· < ·) →
      (∀ m ∈ l, prev < m) → ∀ p ∈ runsAux start prev l, p.1 ≤ p.2 := by
  intro l
  induction l with
  | nil =>
    intro s pr hsp _ _ q hq
    simp only [runsAux, List.mem_singleton] at hq
    subst hq
    exact hsp
  | cons n rest ih =>
    intro s pr hsp hpw hgt q hq
    rcases List.pairwise_cons.1 hpw with ⟨hn, hrest⟩
    by_cases h : n = pr + 1
    · have hsn : s ≤ n := le_trans hsp (le_of_lt (hgt n (List.mem_cons_self n rest)))
      exact ih s n hsn hrest hn q (by simpa only [runsAux, if_pos h] using hq)
    · simp only [runsAux, if_neg h, List.mem_cons] at hq
      rcases hq with rfl | hq
      · exact hsp
      · exact ih n n le_rfl hrest hn q hq

theorem runsAux_chain :
    ∀ (l : List Int) (start prev : Int), l.Pairwise (· < ·) → (∀ m ∈ l, prev < m) →
      List.Chain' (fun p q => p.2 + 1 < q.1) (runsAux start prev l) := by
  intro l
  induction l with
  | nil => intro s pr _ _; simp [runsAux]
  | cons n rest ih =>
    intro s pr hpw hgt
    rcases List.pairwise_cons.1 hpw with ⟨hn, hrest⟩
    by_cases h : n = pr + 1
    · simpa only [runsAux, if_pos h] using ih s n hrest hn
    · simp only [runsAux, if_neg h]
      rcases runsAux_head n rest n with ⟨b, t, he⟩
      rw [he]
      refine List.chain'_cons.2 ⟨?_, ?_⟩
      · have h1 : pr < n := hgt n (List.mem_cons_self n rest)
        simp only
        omega
      · rw [← he]
        exact ih n n hrest hn

theorem runsAux_cover :
    ∀ (l : List Int) (start prev : Int), start ≤ prev → l.Pairwise (· < ·) →
      (∀ m ∈ l, prev < m) → ∀ k : Int,
      ((∃ p ∈ runsAux start prev l, p.1 ≤ k ∧ k ≤ p.2) ↔
        (start ≤ k ∧ k ≤ prev) ∨ k ∈ l) := by
  intro l
  induction l with
  | nil =>
    intro s pr hsp _ _ k
    simp [runsAux]
  | cons n rest ih =>
    intro s pr hsp hpw hgt k
    rcases List.pairwise_cons.1 hpw with ⟨hn, hrest⟩
    have h1 : pr < n := hgt n (List.mem_cons_self n rest)
    by_cases h : n = pr + 1
    · have hsn : s ≤ n := le_trans hsp (le_of_lt h1)
      rw [show runsAux s pr (n :: rest) = runsAux s n rest by
            simp only [runsAux, if_pos h]]
      rw [ih s n hsn hrest hn k]
      simp only [List.mem_cons]
      constructor
      · rintro (⟨hk1, hk2⟩ | hk)
        · rcases lt_or_eq_of_le hk2 with hlt | rfl
          · exact Or.inl ⟨hk1, by omega⟩
          · exact Or.inr (Or.inl rfl)
        · exact Or.inr (Or.inr hk)
      · rintro (⟨hk1, hk2⟩ | rfl | hk)
        · exact Or.inl ⟨hk1, by omega⟩
        · exact Or.inl ⟨hsn, le_rfl⟩
        · exact Or.inr hk
    · have hrw : runsAux s pr (n :: rest) = (s, pr) :: runsAux n n rest := by
        simp only [runsAux, if_neg h]
      have hcov := ih n n le_rfl hrest hn k
      rw [hrw]
      constructor
      · rintro ⟨p, hp, hk1, hk2⟩
        rcases List.mem_cons.1 hp with rfl | hp
        · exact Or.inl ⟨hk1, hk2⟩
        · rcases hcov.1 ⟨p, hp, hk1, hk2⟩ with ⟨ha, hb⟩ | hm
          · exact Or.inr (List.mem_cons.2 (Or.inl (le_antisymm hb ha)))
          · exact Or.inr (List.mem_cons.2 (Or.inr hm))
      · rintro (⟨hk1, hk2⟩ | hk)
        · exact ⟨(s, pr), List.mem_cons_self _ _, hk1, hk2⟩
        · rcases List.mem_cons.1 hk with rfl | hk
          · rcases hcov.2 (Or.inl ⟨le_rfl, le_rfl⟩) with ⟨p, hp, hpk⟩
            exact ⟨p, List.mem_cons.2 (Or.inr hp), hpk⟩
          · rcases hcov.2 (Or.inr hk) with ⟨p, hp, hpk⟩
            exact ⟨p, List.mem_cons.2 (Or.inr hp), hpk⟩

/-! ## C1: `compress_ranges` -/

/-- C1: for every list of integers, `compress_ranges` returns the
deduplicated ascending multiset as maximal contiguous runs: the empty
input yields the empty sequence, every emitted pair satisfies
`low ≤ high`, consecutive pairs are strictly non-adjacent
(`next.low > previous.high + 1`), and the union of the closed intervals
is exactly the set of input integers. -/
theorem compress_ranges_spec (nums : List Int) :
    (nums = [] → compress_ranges nums = []) ∧
    (∀ p ∈ compress_ranges nums, p.1 ≤ p.2) ∧
    List.Chain' (fun p q => p.2 + 1 < q.1) (compress_ranges nums) ∧
    (∀ k : Int, (∃ p ∈ compress_ranges nums, p.1 ≤ k ∧ k ≤ p.2) ↔ k ∈ nums) := by
  have hmem := sortedDedup_mem nums
  have hpw := sortedDedup_pairwise nums
  cases hsd : sortedDedup nums with
  | nil =>
    have hcr : compress_ranges nums = [] := by
      unfold compress_ranges
      rw [hsd]
    refine ⟨fun _ => hcr, ?_, ?_, ?_⟩
    · rw [hcr]
      intro p hp
      exact absurd hp (List.not_mem_nil p)
    · rw [hcr]
      exact List.chain'_nil
    · intro k
      rw [hcr]
      constructor
      · rintro ⟨p, hp, _⟩
        exact absurd hp (List.not_mem_nil p)
      · intro hk
        exact absurd ((hmem k).2 hk) (by rw [hsd]; exact List.not_mem_nil k)
  | cons x rest =>
    rw [hsd] at hpw
    rcases List.pairwise_cons.1 hpw with ⟨hx, hrest⟩
    have hcr : compress_ranges nums = runsAux x x rest := by
      unfold compress_ranges
      rw [hsd]
    refine ⟨?_, ?_, ?_, ?_⟩
    · intro hnil
      subst hnil
      simp [sortedDedup] at hsd
    · rw [hcr]
      exact runsAux_fst_le_snd rest x x le_rfl hrest hx
    · rw [hcr]
      exact runsAux_chain rest x x hrest hx
    · intro k
      rw [hcr, runsAux_cover rest x x le_rfl hrest hx k, ← hmem k, hsd]
      simp only [List.mem_cons]
      constructor
      · rintro (⟨h1, h2⟩ | hk)
        · exact Or.inl (le_antisymm h2 h1)
        · exact Or.inr hk
      · rintro (rfl | hk)
        · exact Or.inl ⟨le_rfl, le_rfl⟩
        · exact Or.inr hk

/-- Witness for C1 at a concrete input. -/
theorem compress_ranges_spec_witness :
    (∃ p ∈ compress_ranges [1, 2, 3, 7, 8, 15], p.1 ≤ 7 ∧ 7 ≤ p.2) ∧
      compress_ranges ([] : List Int) = [] :=
  ⟨((compress_ranges_spec [1, 2, 3, 7, 8, 15]).2.2.2 7).mpr (by decide),
   (compress_ranges_spec []).1 rfl⟩

/-! ## C8: `format_ranges` -/

/-- C8: each pair renders as `(low)` when `low = high` and as
`(low–high)` with an en dash otherwise; the rendered ranges are joined
by single spaces in the order given; composing `compress_ranges` and
`format_ranges` on `[1,2,3,7,8,15]` yields `(1–3) (7–8) (15)`. -/
theorem format_ranges_spec :
    (∀ a b : Int, a = b → format_one (a, b) = "(" ++ toString a ++ ")") ∧
    (∀ a b : Int, a ≠ b →
      format_one (a, b) = "(" ++ toString a ++ "–" ++ toString b ++ ")") ∧
    format_ranges [] = "" ∧
    (∀ p : Int × Int, format_ranges [p] = format_one p) ∧
    (∀ (p q : Int × Int) (rs : List (Int × Int)),
      format_ranges (p :: q :: rs) = format_one p ++ " " ++ format_ranges (q :: rs)) ∧
    format_ranges (compress_ranges [1, 2, 3, 7, 8, 15]) = "(1–3) (7–8) (15)" := by
  refine ⟨?_, ?_, rfl, fun p => rfl, fun p q rs => rfl, by decide⟩
  · intro a b h
    subst h
    simp [format_one]
  · intro a b h
    simp [format_one, h]

/-- Witness for C8 at concrete inputs. -/
theorem format_ranges_spec_witness :
    format_one ((15 : Int), (15 : Int)) = "(" ++ toString (15 : Int) ++ ")" ∧
      format_one ((1 : Int), (3 : Int)) =
        "(" ++ toString (1 : Int) ++ "–" ++ toString (3 : Int) ++ ")" :=
  ⟨format_ranges_spec.1 15 15 rfl, format_ranges_spec.2.1 1 3 (by decide)⟩

/-! ## C6: `normalize_mts_id` -/

/-- Counterexample for C6: the claim says the normalizer strips all
non-digit characters and returns the digit string unpadded when it is
longer than nine; on `"a1234567890"` the `sync_master.py` version
returns the original string with the `a` intact, not `"1234567890"`.
The claim also implies a digit-less input is padded to width nine, but
the `sync_bd_source_to_target_terminals.py` version maps `"abc"` to the
empty string. -/
theorem normalize_mts_id_counterexample :
    SyncMaster.normalize_mts_id (Val.str "a1234567890") = "a1234567890" ∧
    "a1234567890" ≠ ("1234567890" : String) ∧
    SyncBd.normalize_mts_id (Val.str "abc") = "" ∧
    ("" : String) ≠ "000000000" :=
  ⟨rfl, by decide, rfl, by decide⟩

theorem zfill_length (s : String) (w : Nat) (h : s.length ≤ w) :
    (zfill s w).length = w := by
  unfold zfill
  rw [String.length_append]
  show (List.replicate (w - s.length) '0').length + s.length = w
  rw [List.length_replicate]
  omega

/-- C6 amended: in `sync_master.py`, when the input's digit string is
empty or longer than nine digits the ORIGINAL string is returned
verbatim (non-digits included); with one to nine digits the digit string
is zero-padded to width nine.  In
`sync_bd_source_to_target_terminals.py` the input is stripped first, a
digit-less input yields the empty string, more than nine digits pass
through unpadded, and one to nine digits are zero-padded to width nine.
The claim's three examples hold for both versions. -/
theorem normalize_mts_id_amended :
    (∀ s : String, (digitsOnly s = "" ∨ (digitsOnly s).length > 9) →
      SyncMaster.normalize_mts_id (Val.str s) = s) ∧
    (∀ s : String, digitsOnly s ≠ "" → (digitsOnly s).length ≤ 9 →
      SyncMaster.normalize_mts_id (Val.str s) = zfill (digitsOnly s) 9 ∧
        (SyncMaster.normalize_mts_id (Val.str s)).length = 9) ∧
    (∀ s : String, digitsOnly (pyStrip s) = "" →
      SyncBd.normalize_mts_id (Val.str s) = "") ∧
    (∀ s : String, (digitsOnly (pyStrip s)).length > 9 →
      SyncBd.normalize_mts_id (Val.str s) = digitsOnly (pyStrip s)) ∧
    (∀ s : String, digitsOnly (pyStrip s) ≠ "" → (digitsOnly (pyStrip s)).length ≤ 9 →
      SyncBd.normalize_mts_id (Val.str s) = zfill (digitsOnly (pyStrip s)) 9 ∧
        (SyncBd.normalize_mts_id (Val.str s)).length = 9) ∧
    SyncMaster.normalize_mts_id (Val.str "123") = "000000123" ∧
    SyncMaster.normalize_mts_id (Val.str "1234567890") = "1234567890" ∧
    SyncMaster.normalize_mts_id (Val.str "") = "" ∧
    SyncBd.normalize_mts_id (Val.str "123") = "000000123" ∧
    SyncBd.normalize_mts_id (Val.str "1234567890") = "1234567890" ∧
    SyncBd.normalize_mts_id (Val.str "") = "" := by
  refine ⟨?_, ?_, ?_, ?_, ?_, rfl, rfl, rfl, rfl, rfl, rfl⟩
  · intro s h
    simp only [SyncMaster.normalize_mts_id, pyStr]
    rw [if_pos h]
  · intro s h1 h2
    have hc : ¬(digitsOnly s = "" ∨ (digitsOnly s).length > 9) := by
      push_neg
      exact ⟨h1, by omega⟩
    constructor
    · simp only [SyncMaster.normalize_mts_id, pyStr]
      rw [if_neg hc]
    · simp only [SyncMaster.normalize_mts_id, pyStr]
      rw [if_neg hc]
      exact zfill_length _ _ h2
  · intro s h
    simp only [SyncBd.normalize_mts_id, pyStr]
    by_cases he : pyStrip s = ""
    · rw [if_pos he]
    · rw [if_neg he, if_pos h]
  · intro s h
    have hne : pyStrip s ≠ "" := by
      intro he
      rw [he] at h
      simp [digitsOnly] at h
    have hdg : digitsOnly (pyStrip s) ≠ "" := by
      intro he
      rw [he] at h
      simp at h
    simp only [SyncBd.normalize_mts_id, pyStr]
    rw [if_neg hne, if_neg hdg, if_pos h]
  · intro s h1 h2
    have hne : pyStrip s ≠ "" := by
      intro he
      rw [he] at h1
      exact h1 rfl
    have hgt : ¬(digitsOnly (pyStrip s)).length > 9 := by omega
    constructor
    · simp only [SyncBd.normalize_mts_id, pyStr]
      rw [if_neg hne, if_neg h1, if_neg hgt]
    · simp only [SyncBd.normalize_mts_id, pyStr]
      rw [if_neg hne, if_neg h1, if_neg hgt]
      exact zfill_length _ _ h2

/-- Witness for C6's amended claim at concrete inputs. -/
theorem normalize_mts_id_amended_witness :
    SyncMaster.normalize_mts_id (Val.str "a1234567890") = "a1234567890" ∧
      (SyncBd.normalize_mts_id (Val.str " 123 ") = zfill (digitsOnly (pyStrip " 123 ")) 9 ∧
        (SyncBd.normalize_mts_id (Val.str " 123 ")).length = 9) :=
  ⟨normalize_mts_id_amended.1 "a1234567890" (by decide),
   normalize_mts_id_amended.2.2.2.2.1 " 123 " (by decide) (by decide)⟩

/-! ## C7: `cert_value_from_bd_comment` -/

theorem pyLower_eq_empty (s : String) : pyLower s = "" ↔ s = "" := by
  obtain ⟨d⟩ := s
  constructor
  · intro h
    have h2 : d.map pyLowerChar = [] := congrArg String.data h
    have h3 : d = [] := List.map_eq_nil_iff.1 h2
    rw [h3]
  · intro h
    rw [h]
    rfl

/-- C7: `cert_value_from_bd_comment` is total with values in 0 and 1; it
returns 1 exactly when the comment is empty after trimming or, after
trimming and lowercasing, equals the fixed exception phrase; every other
non-empty comment yields 0.  The claim's three examples hold. -/
theorem cert_value_spec (v : Val) :
    (cert_value_from_bd_comment v = 1 ∨ cert_value_from_bd_comment v = 0) ∧
    (cert_value_from_bd_comment v = 1 ↔
      pyStrip (commentStr v) = "" ∨
        pyLower (pyStrip (commentStr v)) = CERT_OK_PHRASE) ∧
    cert_value_from_bd_comment (Val.str "") = 1 ∧
    cert_value_from_bd_comment
      (Val.str " Есть все, но со стороны МТС нет сертификата ") = 1 ∧
    cert_value_from_bd_comment (Val.str "что-то другое") = 0 := by
  refine ⟨?_, ?_, rfl, by decide, by decide⟩
  · simp only [cert_value_from_bd_comment]
    by_cases h1 : pyLower (pyStrip (commentStr v)) = ""
    · rw [if_pos h1]
      exact Or.inl rfl
    · rw [if_neg h1]
      by_cases h2 : pyLower (pyStrip (commentStr v)) = CERT_OK_PHRASE
      · rw [if_pos h2]
        exact Or.inl rfl
      · rw [if_neg h2]
        exact Or.inr rfl
  · simp only [cert_value_from_bd_comment]
    by_cases h1 : pyLower (pyStrip (commentStr v)) = ""
    · rw [if_pos h1]
      constructor
      · intro _
        exact Or.inl ((pyLower_eq_empty _).1 h1)
      · intro _
        rfl
    · rw [if_neg h1]
      by_cases h2 : pyLower (pyStrip (commentStr v)) = CERT_OK_PHRASE
      · rw [if_pos h2]
        constructor
        · intro _
          exact Or.inr h2
        · intro _
          rfl
      · rw [if_neg h2]
        constructor
        · intro h0
          exact absurd h0 (by decide)
        · rintro (hs | hp)
          · exact absurd ((pyLower_eq_empty _).2 hs) h1
          · exact absurd hp h2

/-! ## C10: `normalize_bool_to_01` idempotence -/

theorem normalize_bool_fallback_mem (v : Val) (x : Int)
    (h : normalize_bool_fallback v = some x) : x = 0 ∨ x = 1 := by
  simp only [normalize_bool_fallback] at h
  split at h
  · exact absurd h (by simp)
  · split at h
    · exact Or.inr (Option.some.inj h).symm
    · split at h
      · exact Or.inl (Option.some.inj h).symm
      · exact absurd h (by simp)

theorem normalize_bool_to_01_mem (v : Val) (x : Int)
    (h : normalize_bool_to_01 v = some x) : x = 0 ∨ x = 1 := by
  cases v with
  | none => exact absurd h (by simp [normalize_bool_to_01])
  | str s => exact normalize_bool_fallback_mem _ _ h
  | int n =>
    simp only [normalize_bool_to_01] at h
    by_cases h1 : n = 1
    · rw [if_pos h1] at h
      exact Or.inr (Option.some.inj h).symm
    · rw [if_neg h1] at h
      by_cases h0 : n = 0
      · rw [if_pos h0] at h
        exact Or.inl (Option.some.inj h).symm
      · rw [if_neg h0] at h
        exact normalize_bool_fallback_mem _ _ h
  | bool b =>
    simp only [normalize_bool_to_01] at h
    cases b
    · exact Or.inl (Option.some.inj h).symm
    · exact Or.inr (Option.some.inj h).symm

/-- C10: `normalize_bool_to_01` is idempotent on its successful outputs:
whenever it returns `some x`, `x` is 0 or 1 and normalizing the written
cell value `x` again returns `some x`. -/
theorem normalize_bool_to_01_idem (v : Val) (x : Int)
    (h : normalize_bool_to_01 v = some x) :
    (x = 0 ∨ x = 1) ∧ normalize_bool_to_01 (Val.int x) = some x := by
  have hx : x = 0 ∨ x = 1 := normalize_bool_to_01_mem v x h
  refine ⟨hx, ?_⟩
  rcases hx with rfl | rfl
  · rfl
  · rfl

/-- Witness for C10 at a concrete input. -/
theorem normalize_bool_to_01_idem_witness :
    ((1 : Int) = 0 ∨ (1 : Int) = 1) ∧
      normalize_bool_to_01 (Val.int 1) = some 1 :=
  normalize_bool_to_01_idem (Val.str "yes") 1 rfl

/-! ## Lemmas: `get_last_data_row` -/

theorem ldr_foldl_cases (ws : Ws) (kc : Nat) :
    ∀ (rs : List Nat) (acc : Nat),
      rs.foldl (ldrStep ws kc) acc = acc ∨
        (rs.foldl (ldrStep ws kc) acc ∈ rs ∧
          is_empty_cell (cellValue ws (rs.foldl (ldrStep ws kc) acc) kc) = false) := by
  intro rs
  induction rs with
  | nil => intro acc; exact Or.inl rfl
  | cons r t ih =>
    intro acc
    rw [List.foldl_cons]
    rcases ih (ldrStep ws kc acc r) with h | ⟨hm, he⟩
    · rw [h]
      unfold ldrStep
      by_cases hc : is_empty_cell (cellValue ws r kc) = true
      · rw [if_pos hc]
        exact Or.inl rfl
      · rw [if_neg hc]
        refine Or.inr ⟨List.mem_cons_self r t, ?_⟩
        simpa using hc
    · exact Or.inr ⟨List.mem_cons.2 (Or.inr hm), he⟩

theorem ldr_foldl_ge (ws : Ws) (kc : Nat) :
    ∀ (rs : List Nat), rs.Pairwise (· < ·) →
      ∀ (acc r : Nat), r ∈ rs → is_empty_cell (cellValue ws r kc) = false →
        r ≤ rs.foldl (ldrStep ws kc) acc := by
  intro rs
  induction rs with
  | nil => intro _ acc r hr _; exact absurd hr (List.not_mem_nil r)
  | cons a t ih =>
    intro hpw acc r hr hne
    rcases List.pairwise_cons.1 hpw with ⟨ha, ht⟩
    rw [List.foldl_cons]
    rcases List.mem_cons.1 hr with rfl | hr
    · have hstep : ldrStep ws kc acc r = r := by
        unfold ldrStep
        rw [if_neg (by simp [hne])]
      rw [hstep]
      rcases ldr_foldl_cases ws kc t r with h | ⟨hm, _⟩
      · rw [h]
      · exact le_of_lt (ha _ hm)
    · exact ih ht (ldrStep ws kc acc a) r hr hne

theorem get_last_data_row_cases (ws : Ws) (kc : Nat) :
    get_last_data_row ws kc 2 = 1 ∨
      (2 ≤ get_last_data_row ws kc 2 ∧ get_last_data_row ws kc 2 ≤ wsMaxRow ws ∧
        is_empty_cell (cellValue ws (get_last_data_row ws kc 2) kc) = false) := by
  rcases ldr_foldl_cases ws kc (List.range' 2 (wsMaxRow ws + 1 - 2)) 1 with h | ⟨hm, he⟩
  · exact Or.inl h
  · have hb := List.mem_range'_1.1 hm
    refine Or.inr ⟨hb.1, ?_, he⟩
    unfold get_last_data_row
    omega

theorem get_last_data_row_empty_after (ws : Ws) (kc r : Nat)
    (h2 : 2 ≤ r) (hr : r ≤ wsMaxRow ws) (hgt : get_last_data_row ws kc 2 < r) :
    is_empty_cell (cellValue ws r kc) = true := by
  by_contra hne
  have hne2 : is_empty_cell (cellValue ws r kc) = false := by
    simpa using hne
  have hmem : r ∈ List.range' 2 (wsMaxRow ws + 1 - 2) :=
    List.mem_range'_1.2 ⟨h2, by omega⟩
  have hle := ldr_foldl_ge ws kc _ (List.pairwise_lt_range' 2 (wsMaxRow ws + 1 - 2))
    1 r hmem hne2
  unfold get_last_data_row at hgt
  omega

theorem get_cell_str_of_empty (ws : Ws) (r c : Nat)
    (h : is_empty_cell (cellValue ws r c) = true) : get_cell_str ws r c = "" := by
  unfold get_cell_str
  cases hv : cellValue ws r c with
  | none => rfl
  | str s =>
    rw [hv] at h
    have : pyStrip s = "" := by simpa [is_empty_cell] using h
    simpa [pyStr] using this
  | int n =>
    rw [hv] at h
    exact absurd h (by simp [is_empty_cell])
  | bool b =>
    rw [hv] at h
    exact absurd h (by simp [is_empty_cell])

theorem get_cell_str_cons (h : List Val) (l : List (List Val)) (k c : Nat) :
    get_cell_str (h :: l) (k + 2) c = rowKeyStr (l.getD k []) c := rfl

/-! ## Lemmas: positional deletion (`delete_rows` in descending order) -/

theorem pairwise_imp_of_mem {R S : Nat → Nat → Prop} {l : List Nat}
    (h : ∀ a ∈ l, ∀ b ∈ l, R a b → S a b) (hp : l.Pairwise R) : l.Pairwise S := by
  induction hp with
  | nil => exact List.Pairwise.nil
  | cons hr hpw ih =>
    rename_i a t
    refine List.pairwise_cons.2 ⟨?_, ?_⟩
    · intro b hb
      exact h a (List.mem_cons_self a t) b (List.mem_cons.2 (Or.inr hb)) (hr b hb)
    · exact ih fun x hx y hy =>
        h x (List.mem_cons.2 (Or.inr hx)) y (List.mem_cons.2 (Or.inr hy))

theorem removeIdxsAux_noSkip (is : List Nat) :
    ∀ (t : List α) (j : Nat), (∀ x ∈ is, x < j) → removeIdxsAux is j t = t := by
  intro t
  induction t with
  | nil => intro j _; rfl
  | cons a t ih =>
    intro j hj
    have hm : j ∉ is := fun hmem => absurd (hj j hmem) (lt_irrefl j)
    simp only [removeIdxsAux, if_neg hm]
    rw [ih (j + 1) fun x hx => Nat.lt_succ_of_lt (hj x hx)]

theorem removeIdxsAux_congr (is1 is2 : List Nat) :
    ∀ (t : List α) (j : Nat), (∀ k, j ≤ k → (k ∈ is1 ↔ k ∈ is2)) →
      removeIdxsAux is1 j t = removeIdxsAux is2 j t := by
  intro t
  induction t with
  | nil => intro j _; rfl
  | cons a t ih =>
    intro j hj
    by_cases hm : j ∈ is1
    · have hm2 : j ∈ is2 := (hj j le_rfl).1 hm
      simp only [removeIdxsAux, if_pos hm, if_pos hm2]
      exact ih (j + 1) fun k hk => hj k (by omega)
    · have hm2 : j ∉ is2 := fun hx => hm ((hj j le_rfl).2 hx)
      simp only [removeIdxsAux, if_neg hm, if_neg hm2]
      rw [ih (j + 1) fun k hk => hj k (by omega)]

theorem removeIdxsAux_eraseIdx (ds : List Nat) (d : Nat) (hlt : ∀ x ∈ ds, x < d) :
    ∀ (l : List α) (j : Nat), j ≤ d →
      removeIdxsAux ds j (l.eraseIdx (d - j)) = removeIdxsAux (d :: ds) j l := by
  intro l
  induction l with
  | nil => intro j _; rfl
  | cons a t ih =>
    intro j hj
    rcases eq_or_lt_of_le hj with rfl | hjd
    · rw [Nat.sub_self, List.eraseIdx_cons_zero]
      have hm : j ∈ j :: ds := List.mem_cons_self _ _
      simp only [removeIdxsAux, if_pos hm]
      rw [removeIdxsAux_noSkip ds t j hlt,
        removeIdxsAux_noSkip (j :: ds) t (j + 1) ?_]
      intro x hx
      rcases List.mem_cons.1 hx with rfl | hx
      · omega
      · exact Nat.lt_succ_of_lt (hlt x hx)
    · have hsub : d - j = (d - (j + 1)) + 1 := by omega
      rw [hsub, List.eraseIdx_cons_succ]
      by_cases hm : j ∈ ds
      · have hm2 : j ∈ d :: ds := List.mem_cons.2 (Or.inr hm)
        simp only [removeIdxsAux, if_pos hm, if_pos hm2]
        exact ih (j + 1) (by omega)
      · have hm2 : j ∉ d :: ds := by
          intro hx
          rcases List.mem_cons.1 hx with heq | hx
          · omega
          · exact hm hx
        simp only [removeIdxsAux, if_neg hm, if_neg hm2]
        rw [ih (j + 1) (by omega)]

theorem foldl_eraseIdx_eq_removeIdxs (ds : List Nat) :
    ∀ l : List α, ds.Pairwise (· > ·) →
      ds.foldl (fun acc i => acc.eraseIdx i) l = removeIdxsAux ds 0 l := by
  induction ds with
  | nil =>
    intro l _
    exact (removeIdxsAux_noSkip [] l 0 fun x hx =>
      absurd hx (List.not_mem_nil x)).symm
  | cons d ds ih =>
    intro l hpw
    rcases List.pairwise_cons.1 hpw with ⟨hd, hds⟩
    rw [List.foldl_cons, ih (l.eraseIdx d) hds]
    have hstep := removeIdxsAux_eraseIdx ds d hd l 0 (Nat.zero_le d)
    simpa using hstep

theorem removeIdxsAux_filter (is : List Nat) (p : α → Bool) (dflt : α) :
    ∀ (t : List α) (j : Nat),
      (∀ k, k < t.length → ((j + k) ∈ is ↔ p (t.getD k dflt) = false)) →
      removeIdxsAux is j t = t.filter p := by
  intro t
  induction t with
  | nil => intro j _; rfl
  | cons a t ih =>
    intro j hchar
    have h0 := hchar 0 (by simp)
    rw [Nat.add_zero, List.getD_cons_zero] at h0
    have hshift : ∀ k, k < t.length → ((j + 1 + k) ∈ is ↔ p (t.getD k dflt) = false) := by
      intro k hk
      have hh := hchar (k + 1) (by simpa using Nat.succ_lt_succ hk)
      rw [List.getD_cons_succ] at hh
      have harith : j + (k + 1) = j + 1 + k := by omega
      rwa [harith] at hh
    by_cases hm : j ∈ is
    · have hpa : p a = false := h0.1 hm
      simp only [removeIdxsAux, if_pos hm, List.filter_cons, hpa]
      simp only [Bool.false_eq_true, if_false]
      exact ih (j + 1) hshift
    · have hpa : p a = true := by
        cases hx : p a
        · exact absurd (h0.2 hx) hm
        · rfl
      simp only [removeIdxsAux, if_neg hm, List.filter_cons, hpa, if_true]
      rw [ih (j + 1) hshift]

/-! ## C3: `delete_missing_agents` -/

theorem delete_missing_agents_eq_filter (h : List Val) (l : List (List Val))
    (c : Nat) (A : List String) :
    (SyncXlsx.delete_missing_agents (h :: l) c A).1 =
      h :: l.filter (keepRow c A) := by
  have hempty : ∀ k, k < l.length → get_last_data_row (h :: l) c 2 < k + 2 →
      rowKeyStr (l.getD k []) c = "" := by
    intro k hk hgt
    have hmax : k + 2 ≤ wsMaxRow (h :: l) := by
      simp only [wsMaxRow, List.length_cons]
      omega
    have hemp := get_last_data_row_empty_after (h :: l) c (k + 2) (by omega) hmax hgt
    have h2 := get_cell_str_of_empty (h :: l) (k + 2) c hemp
    rwa [get_cell_str_cons] at h2
  by_cases hl2 : get_last_data_row (h :: l) c 2 < 2
  · have hres : SyncXlsx.delete_missing_agents (h :: l) c A = (h :: l, 0) := by
      unfold SyncXlsx.delete_missing_agents
      rw [if_pos hl2]
    rw [hres]
    have hfl : l.filter (keepRow c A) = l := by
      apply List.filter_eq_self.2
      intro row hrow
      rcases List.mem_iff_getElem.1 hrow with ⟨k, hk, hkeq⟩
      have hkey : rowKeyStr row c = "" := by
        rw [← hkeq, ← List.getD_eq_getElem l [] hk]
        exact hempty k hk (by omega)
      simp [keepRow, hkey]
    rw [hfl]
  · push_neg at hl2
    have hres : (SyncXlsx.delete_missing_agents (h :: l) c A).1 =
        (SyncXlsx.deleteCandidates (h :: l) c A).reverse.foldl
          (fun acc r => SyncXlsx.delete_rows acc r) (h :: l) := by
      unfold SyncXlsx.delete_missing_agents
      rw [if_neg (by omega)]
    rw [hres]
    have hTD : ∀ r, r ∈ SyncXlsx.deleteCandidates (h :: l) c A ↔
        (2 ≤ r ∧ r < get_last_data_row (h :: l) c 2 + 1 ∧
          SyncXlsx.deleteCond (h :: l) c A r = true) := by
      intro r
      unfold SyncXlsx.deleteCandidates
      rw [List.mem_filter, List.mem_range'_1]
      constructor
      · rintro ⟨⟨hr1, hr2⟩, hp⟩
        exact ⟨hr1, by omega, hp⟩
      · rintro ⟨hr1, hr2, hp⟩
        exact ⟨⟨hr1, by omega⟩, hp⟩
    have hTDge : ∀ r ∈ SyncXlsx.deleteCandidates (h :: l) c A, 2 ≤ r :=
      fun r hr => ((hTD r).1 hr).1
    have hfold : (SyncXlsx.deleteCandidates (h :: l) c A).reverse.foldl
        (fun acc r => SyncXlsx.delete_rows acc r) (h :: l) =
        ((SyncXlsx.deleteCandidates (h :: l) c A).reverse.map (fun r => r - 1)).foldl
          (fun acc i => acc.eraseIdx i) (h :: l) := by
      rw [List.foldl_map]
      rfl
    have hpwTD : (SyncXlsx.deleteCandidates (h :: l) c A).Pairwise (· < ·) :=
      List.Pairwise.filter _ (List.pairwise_lt_range' 2 _)
    have hpwRev : (SyncXlsx.deleteCandidates (h :: l) c A).reverse.Pairwise (· > ·) :=
      List.pairwise_reverse.2 hpwTD
    have hds : ((SyncXlsx.deleteCandidates (h :: l) c A).reverse.map
        (fun r => r - 1)).Pairwise (· > ·) := by
      rw [List.pairwise_map]
      refine pairwise_imp_of_mem ?_ hpwRev
      intro a ha b hb hab
      have ha2 : 2 ≤ a := hTDge a (List.mem_reverse.1 ha)
      have hb2 : 2 ≤ b := hTDge b (List.mem_reverse.1 hb)
      omega
    rw [hfold, foldl_eraseIdx_eq_removeIdxs _ _ hds]
    have hmap : ∀ i, i ∈ (SyncXlsx.deleteCandidates (h :: l) c A).reverse.map
        (fun r => r - 1) ↔ (i + 1) ∈ SyncXlsx.deleteCandidates (h :: l) c A := by
      intro i
      constructor
      · intro hmem
        rcases List.mem_map.1 hmem with ⟨r, hr, hr1⟩
        have hr2 := hTDge r (List.mem_reverse.1 hr)
        have : r = i + 1 := by omega
        rw [← this]
        exact List.mem_reverse.1 hr
      · intro hmem
        exact List.mem_map.2 ⟨i + 1, List.mem_reverse.2 hmem, by omega⟩
    have h0 : 0 ∉ (SyncXlsx.deleteCandidates (h :: l) c A).reverse.map
        (fun r => r - 1) := by
      intro hmem
      have := hTDge 1 ((hmap 0).1 hmem)
      omega
    simp only [removeIdxsAux, if_neg h0]
    congr 1
    apply removeIdxsAux_filter _ _ []
    intro k hk
    have hcond : SyncXlsx.deleteCond (h :: l) c A (k + 2) =
        !(keepRow c A (l.getD k [])) := by
      unfold SyncXlsx.deleteCond keepRow
      rw [get_cell_str_cons, Bool.not_or, bne]
    rw [hmap (1 + k)]
    have harith : 1 + k + 1 = k + 2 := by omega
    rw [harith, hTD (k + 2)]
    constructor
    · rintro ⟨-, -, hp⟩
      rw [hcond] at hp
      simpa using hp
    · intro hkeep
      refine ⟨by omega, ?_, ?_⟩
      · by_contra hout
        have hkey := hempty k hk (by omega)
        rw [keepRow, hkey] at hkeep
        simp at hkeep
      · rw [hcond, hkeep]
        rfl

/-- C3: under the delete policy, `delete_missing_agents` deletes in
descending row order (the iteration list is strictly descending) and the
resulting sheet keeps the header and is exactly the data rows filtered
by "key empty or key in the source set": no data row with a non-empty
key outside the source set survives, every data row whose key is in the
source set survives with its data, in order (a sublist of the original
data rows), so no row is skipped or doubly deleted by index shifting. -/
theorem delete_missing_agents_spec (h : List Val) (l : List (List Val))
    (c : Nat) (A : List String) :
    (SyncXlsx.delete_missing_agents (h :: l) c A).1 =
      h :: l.filter (keepRow c A) ∧
    (SyncXlsx.deleteCandidates (h :: l) c A).reverse.Pairwise (· > ·) ∧
    (∀ row ∈ ((SyncXlsx.delete_missing_agents (h :: l) c A).1).tail,
      rowKeyStr row c ≠ "" → A.contains (rowKeyStr row c) = true) ∧
    (∀ row ∈ l, A.contains (rowKeyStr row c) = true →
      row ∈ ((SyncXlsx.delete_missing_agents (h :: l) c A).1).tail) ∧
    ((SyncXlsx.delete_missing_agents (h :: l) c A).1).tail.Sublist l := by
  have heq := delete_missing_agents_eq_filter h l c A
  have htail : ((SyncXlsx.delete_missing_agents (h :: l) c A).1).tail =
      l.filter (keepRow c A) := by
    rw [heq, List.tail_cons]
  refine ⟨heq, ?_, ?_, ?_, ?_⟩
  · exact List.pairwise_reverse.2
      (List.Pairwise.filter _ (List.pairwise_lt_range' 2 _))
  · intro row hrow hne
    rw [htail] at hrow
    have hkeep := (List.mem_filter.1 hrow).2
    rw [keepRow] at hkeep
    rcases Bool.or_eq_true_iff.1 hkeep with hx | hx
    · exact absurd (by simpa using hx) hne
    · exact hx
  · intro row hrow hA
    rw [htail]
    refine List.mem_filter.2 ⟨hrow, ?_⟩
    rw [keepRow, hA]
    simp
  · rw [htail]
    exact List.filter_sublist l

/-! ## C4: empty and whitespace-only keys -/

theorem dictSet_fst (m : List (String × α)) (k : String) (v : α) :
    ∀ p ∈ dictSet m k v, p.1 = k ∨ p ∈ m := by
  intro p hp
  unfold dictSet at hp
  by_cases hc : m.any (fun q => q.1 = k)
  · rw [if_pos hc] at hp
    rcases List.mem_map.1 hp with ⟨q, hq, hqe⟩
    by_cases hqk : q.1 = k
    · rw [if_pos hqk] at hqe
      exact Or.inl (by rw [← hqe])
    · rw [if_neg hqk] at hqe
      exact Or.inr (hqe ▸ hq)
  · rw [if_neg hc] at hp
    rcases List.mem_append.1 hp with hq | hq
    · exact Or.inr hq
    · rcases List.mem_singleton.1 hq with rfl
      exact Or.inl rfl

theorem dictGet_append_single (m : List (String × α)) (k : String) (v : α) :
    (dictGet (m ++ [(k, v)]) k).isSome = true := by
  induction m with
  | nil => simp [dictGet]
  | cons q t ih =>
    rw [List.cons_append]
    unfold dictGet
    by_cases hq : q.1 = k
    · rw [if_pos hq]
      rfl
    · rw [if_neg hq]
      exact ih

/-- Counterexample for C4: `sync_master.py` skips a source row only when
its key cell is `None` or its raw string form is exactly empty; a
whitespace-only key `" "` is NOT excluded: it enters the source map and
is inserted into the target, so the reconciliation counts and writes a
row whose key is whitespace-only, contradicting the claim that such rows
are never inserted or counted. -/
theorem empty_key_counterexample :
    masterInserted (SyncMaster.master_main wbMasterSrcWs wbMasterTgtEmpty) =
      some 1 ∧
    pyStrip " " = "" ∧
    dictGet (SyncMaster.buildSourceMap
      [hdrBase, [Val.str "x", Val.str "1", Val.str "5", Val.str " ",
        Val.str "g", Val.str "o"]] 6 [0, 1, 2, 3, 4, 5] 3 1) " " =
      some [Val.str "x", Val.str "000000001", Val.str "5", Val.str " ",
        Val.str "g", Val.str "o"] :=
  ⟨rfl, rfl, rfl⟩

theorem existingRows_keys_ne_empty (ws : Ws) (ac : Nat) :
    ∀ (rs : List Nat) (m0 : List (String × Nat)),
      (∀ p ∈ m0, p.1 ≠ "") →
      ∀ p ∈ rs.foldl (fun m r =>
          if get_cell_str ws r ac = "" then m
          else dictSet m (get_cell_str ws r ac) r) m0,
        p.1 ≠ "" := by
  intro rs
  induction rs with
  | nil => intro m0 h0 p hp; exact h0 p hp
  | cons r t ih =>
    intro m0 h0 p hp
    rw [List.foldl_cons] at hp
    by_cases hc : get_cell_str ws r ac = ""
    · rw [if_pos hc] at hp
      exact ih m0 h0 p hp
    · rw [if_neg hc] at hp
      refine ih _ ?_ p hp
      intro q hq
      rcases dictSet_fst _ _ _ q hq with hk | hq2
      · rw [hk]
        exact hc
      · exact h0 q hq2

/-- C4 amended: in `sync_xlsx.py` keys are read through `get_cell_str`,
which strips, so a row whose key cell is empty OR whitespace-only is
skipped by the БД scan, carries no entry in the СВОДНАЯ row map, and is
never deleted by `delete_missing_agents`; in `sync_master.py`, however,
a row is skipped only when its key cell is `None` or its raw string form
is exactly the empty string — a whitespace-only key is treated as a real
key and the row participates in matching and insertion. -/
theorem empty_key_amended :
    (∀ (ws_bd : Ws) (ac tc : Nat) (st : SyncXlsx.BdScan) (r : Nat),
      get_cell_str ws_bd r ac = "" → SyncXlsx.bdScanStep ws_bd ac tc st r = st) ∧
    (∀ (ws : Ws) (ac L : Nat) (p : String × Nat),
      p ∈ SyncXlsx.existingRowsByAgent ws ac L → p.1 ≠ "") ∧
    (∀ (h : List Val) (l : List (List Val)) (c : Nat) (A : List String)
      (row : List Val), row ∈ l → rowKeyStr row c = "" →
      row ∈ ((SyncXlsx.delete_missing_agents (h :: l) c A).1).tail) ∧
    (∀ (src_ws : Ws) (ncols : Nat) (idx : List Nat) (ai mi : Nat)
      (m : List (String × List Val)) (r : Nat),
      ((SyncMaster.readRow src_ws r ncols).getD ai Val.none = Val.none ∨
        pyStr ((SyncMaster.readRow src_ws r ncols).getD ai Val.none) = "") →
      SyncMaster.sourceMapStep src_ws ncols idx ai mi m r = m) ∧
    (∀ (src_ws : Ws) (ncols : Nat) (idx : List Nat) (ai mi : Nat)
      (m : List (String × List Val)) (r : Nat),
      (SyncMaster.readRow src_ws r ncols).getD ai Val.none ≠ Val.none →
      pyStr ((SyncMaster.readRow src_ws r ncols).getD ai Val.none) ≠ "" →
      (dictGet (SyncMaster.sourceMapStep src_ws ncols idx ai mi m r)
        (pyStr ((SyncMaster.readRow src_ws r ncols).getD ai Val.none))).isSome =
        true) := by
  refine ⟨?_, ?_, ?_, ?_, ?_⟩
  · intro ws_bd ac tc st r h
    unfold SyncXlsx.bdScanStep
    rw [h]
    simp
  · intro ws ac L p hp
    unfold SyncXlsx.existingRowsByAgent at hp
    by_cases hL : L ≥ 2
    · rw [if_pos hL] at hp
      exact existingRows_keys_ne_empty ws ac _ [] (by simp) p hp
    · rw [if_neg hL] at hp
      exact absurd hp (List.not_mem_nil p)
  · intro h l c A row hrow hkey
    have heq := delete_missing_agents_eq_filter h l c A
    rw [heq, List.tail_cons]
    refine List.mem_filter.2 ⟨hrow, ?_⟩
    rw [keepRow, hkey]
    simp
  · intro src_ws ncols idx ai mi m r h
    simp only [SyncMaster.sourceMapStep]
    rcases h with h | h
    · rw [h]
      simp
    · rw [h]
      simp
  · intro src_ws ncols idx ai mi m r h1 h2
    simp only [SyncMaster.sourceMapStep]
    rw [if_neg ?hcond]
    case hcond =>
      simp only [Bool.or_eq_true, decide_eq_true_eq, beq_iff_eq]
      rintro (hx | hx)
      · exact h1 hx
      · exact h2 hx
    by_cases hdup :
        (dictGet m
          (pyStr ((SyncMaster.readRow src_ws r ncols).getD ai Val.none))).isSome = true
    · rw [if_pos hdup]
      exact hdup
    · rw [if_neg hdup]
      exact dictGet_append_single m _ _

/-! ## C2: matched-row update -/

theorem getD_pad (w : Ws) (n i : Nat) :
    (padTo w n ([] : List Val)).getD i [] = w.getD i [] := by
  unfold padTo
  by_cases hi : i < w.length
  · rw [List.getD_eq_getElem?_getD, List.getElem?_append_left hi,
      ← List.getD_eq_getElem?_getD]
  · push_neg at hi
    rw [List.getD_eq_getElem?_getD, List.getElem?_append_right hi,
      List.getElem?_replicate]
    by_cases h2 : i - w.length < n - w.length
    · rw [if_pos h2]
      rw [List.getD_eq_default w [] hi]
      rfl
    · rw [if_neg h2]
      rw [List.getD_eq_default w [] hi]
      rfl

theorem setCell_rowAt (w : Ws) (r c : Nat) (v : Val) (i : Nat) (hi : i ≠ r - 1) :
    (setCell w r c v).getD i [] = w.getD i [] := by
  unfold setCell
  rw [List.getD_eq_getElem?_getD, List.getElem?_set_ne (by omega),
    ← List.getD_eq_getElem?_getD, getD_pad]

theorem writeRowData_rowAt (tgt_idx : List Nat) (r : Nat) (data : List Val)
    (w : Ws) (i : Nat) (hi : i ≠ r - 1) :
    (SyncMaster.writeRowData tgt_idx r data w).getD i [] = w.getD i [] := by
  unfold SyncMaster.writeRowData
  generalize tgt_idx.enum = qs
  induction qs generalizing w with
  | nil => rfl
  | cons q t ih =>
    rw [List.foldl_cons, ih]
    exact setCell_rowAt _ _ _ _ i hi

theorem applyUpdates_rowAt (tgt_ws : Ws) (tgt_idx : List Nat)
    (updates : List (Nat × List Val)) (i : Nat)
    (hne : ∀ u ∈ updates, u.1 - 1 ≠ i) :
    (SyncMaster.applyUpdates tgt_ws tgt_idx updates).getD i [] =
      tgt_ws.getD i [] := by
  unfold SyncMaster.applyUpdates
  induction updates generalizing tgt_ws with
  | nil => rfl
  | cons u t ih =>
    rw [List.foldl_cons,
      ih _ fun x hx => hne x (List.mem_cons.2 (Or.inr hx))]
    exact writeRowData_rowAt _ _ _ _ i
      fun hx => hne u (List.mem_cons_self u t) hx.symm

theorem clearRow_rowAt (tgt_idx : List Nat) (r : Nat) (w : Ws) (i : Nat)
    (hi : i ≠ r - 1) :
    (tgt_idx.foldl (fun w2 ci => setCell w2 r (ci + 1) Val.none) w).getD i [] =
      w.getD i [] := by
  induction tgt_idx generalizing w with
  | nil => rfl
  | cons ci t ih =>
    rw [List.foldl_cons, ih]
    exact setCell_rowAt _ _ _ _ i hi

theorem applyClears_rowAt (tgt_ws : Ws) (tgt_idx : List Nat)
    (clears : List Nat) (i : Nat) (hne : ∀ rr ∈ clears, rr - 1 ≠ i) :
    (SyncMaster.applyClears tgt_ws tgt_idx clears).getD i [] =
      tgt_ws.getD i [] := by
  unfold SyncMaster.applyClears
  induction clears generalizing tgt_ws with
  | nil => rfl
  | cons rr t ih =>
    rw [List.foldl_cons,
      ih _ fun x hx => hne x (List.mem_cons.2 (Or.inr hx))]
    exact clearRow_rowAt _ _ _ i
      fun hx => hne rr (List.mem_cons_self rr t) hx.symm

/-- Counterexample for C2: in `sync_inside_workbook` a matched target
row whose base-column values are ALL string-equal to the source payload
is still overwritten and still counted as updated: on `wbEqual` (one
matched agent, identical values) the run reports `updated = 1` and
leaves the workbook bit-for-bit unchanged — the claim requires
`updated = 0` there. -/
theorem matched_update_counterexample :
    (SyncXlsx.sync_inside_workbook wbEqual).1 = wbEqual ∧
    (SyncXlsx.sync_inside_workbook wbEqual).2 =
      Except.ok ⟨0, 1, 0⟩ :=
  ⟨by decide, rfl⟩

/-- C2 amended: `sync_master.py` behaves as claimed: a matched target
row is recorded for overwriting exactly when some synchronized column
differs under string comparison (an all-equal row is neither recorded
nor counted), and the apply stages write only the recorded rows, so an
all-equal matched row's cells are untouched.  `sync_xlsx.py`'s
`sync_inside_workbook`, however, overwrites every matched row's base
columns and increments `updated` for every matched agent regardless of
equality. -/
theorem matched_update_amended :
    (∀ (tgt_ws : Ws) (tgt_idx : List Nat) (acc : SyncMaster.Decision)
      (agent : String) (r : Nat) (data : List Val),
      dictGet acc.residual agent = some data →
      SyncMaster.rowSame tgt_ws tgt_idx r data = true →
      SyncMaster.decideStep tgt_ws tgt_idx acc (agent, r) =
        { acc with residual := dictDel acc.residual agent }) ∧
    (∀ (tgt_ws : Ws) (tgt_idx : List Nat) (acc : SyncMaster.Decision)
      (agent : String) (r : Nat) (data : List Val),
      dictGet acc.residual agent = some data →
      SyncMaster.rowSame tgt_ws tgt_idx r data = false →
      SyncMaster.decideStep tgt_ws tgt_idx acc (agent, r) =
        { acc with
          updates := acc.updates ++ [(r, data)]
          residual := dictDel acc.residual agent }) ∧
    (∀ (tgt_ws : Ws) (tgt_idx : List Nat) (updates : List (Nat × List Val))
      (i : Nat), (∀ u ∈ updates, u.1 - 1 ≠ i) →
      (SyncMaster.applyUpdates tgt_ws tgt_idx updates).getD i [] =
        tgt_ws.getD i []) ∧
    (∀ (tgt_ws : Ws) (tgt_idx : List Nat) (clears : List Nat) (i : Nat),
      (∀ rr ∈ clears, rr - 1 ≠ i) →
      (SyncMaster.applyClears tgt_ws tgt_idx clears).getD i [] =
        tgt_ws.getD i []) ∧
    (∀ (svCol : String → Nat) (existing : List (String × Nat))
      (st : SyncXlsx.UpsertState) (agent : String)
      (payload : List (String × String)) (rr : Nat),
      dictGet existing agent = some rr →
      (SyncXlsx.upsertStep svCol existing st (agent, payload)).updated =
        st.updated + 1) := by
  refine ⟨?_, ?_, applyUpdates_rowAt, applyClears_rowAt, ?_⟩
  · intro tgt_ws tgt_idx acc agent r data hget hsame
    unfold SyncMaster.decideStep
    simp only [hget, hsame, if_true]
  · intro tgt_ws tgt_idx acc agent r data hget hsame
    unfold SyncMaster.decideStep
    simp only [hget, hsame]
    rw [if_neg (by simp)]
  · intro svCol existing st agent payload rr hget
    unfold SyncXlsx.upsertStep
    simp only [hget]

/-- Witness for C2's amended claim at concrete inputs: an all-equal
matched row is merely consumed from the residual map by
`sync_master.py`'s decision step, while `sync_xlsx.py`'s upsert step
counts the same situation as an update. -/
theorem matched_update_amended_witness :
    SyncMaster.decideStep [hdrBase, bdRowA] [0, 1, 2, 3, 4, 5]
        ⟨[], [], [("A", bdRowA)]⟩ ("A", 2) =
      { updates := [], clears := [],
        residual := dictDel [("A", bdRowA)] "A" } ∧
    (SyncXlsx.upsertStep (fun _ => 1) [("A", 2)] ⟨[hdrSvod, svodRowA], 0, 0, 3⟩
        ("A", [])).updated = 0 + 1 :=
  ⟨matched_update_amended.1 [hdrBase, bdRowA] [0, 1, 2, 3, 4, 5]
      ⟨[], [], [("A", bdRowA)]⟩ "A" 2 bdRowA rfl rfl,
   matched_update_amended.2.2.2.2 (fun _ => 1) [("A", 2)]
      ⟨[hdrSvod, svodRowA], 0, 0, 3⟩ "A" [] 2 rfl⟩

/-- Witness for C4's amended claim at concrete inputs. -/
theorem empty_key_amended_witness :
    SyncXlsx.bdScanStep [hdrBase, []] 4 3 ⟨[], [], []⟩ 2 = ⟨[], [], []⟩ ∧
    SyncMaster.sourceMapStep [hdrBase, []] 6 [0, 1, 2, 3, 4, 5] 3 1 [] 2 = [] :=
  ⟨empty_key_amended.1 [hdrBase, []] 4 3 ⟨[], [], []⟩ 2 rfl,
   empty_key_amended.2.2.2.1 [hdrBase, []] 6 [0, 1, 2, 3, 4, 5] 3 1 [] 2
     (Or.inl rfl)⟩

/-! ## C5: fail-fast on missing sheets and columns -/

theorem setCell_row1_drop (w : Ws) (c : Nat) (v : Val) :
    (setCell w 1 c v).drop 1 = w.drop 1 := by
  unfold setCell padTo
  cases w with
  | nil => rfl
  | cons a t =>
    simp

theorem ensure_columns_drop (ws : Ws) (needed : List String) :
    (SyncXlsx.ensure_columns_at_end ws needed).drop 1 = ws.drop 1 := by
  unfold SyncXlsx.ensure_columns_at_end
  have key : ∀ (ns : List String) (st : Ws × List String × Nat),
      ((ns.foldl
        (fun (st : Ws × List String × Nat) name =>
          if st.2.1.contains name then st
          else (setCell st.1 1 (st.2.2 + 1) (Val.str name),
                st.2.1 ++ [name], st.2.2 + 1)) st).1).drop 1 =
        (st.1).drop 1 := by
    intro ns
    induction ns with
    | nil => intro st; rfl
    | cons n t ih =>
      intro st
      rw [List.foldl_cons, ih]
      by_cases hc : st.2.1.contains n = true
      · rw [if_pos hc]
      · rw [if_neg hc]
        exact setCell_row1_drop st.1 (st.2.2 + 1) (Val.str n)
  exact key needed (ws, (headerNames ws).map Prod.snd, wsMaxCol ws)

/-- Counterexample for C5: on a workbook whose СВОДНАЯ sheet lacks the
required base columns, `sync_inside_workbook` raises the
missing-columns error but only AFTER `ensure_columns_at_end` has already
appended the derived boolean headers to the target sheet: on the error
path the target is not "exactly as loaded" — a header has been added. -/
theorem failfast_counterexample :
    exceptIsOk (SyncXlsx.sync_inside_workbook wbMissing).2 = false ∧
    headerLookup ((dictGet (SyncXlsx.sync_inside_workbook wbMissing).1
      SyncXlsx.SHEET_SVOD).getD []) "Добавлен сертификат" = some 2 ∧
    headerLookup ((dictGet wbMissing SyncXlsx.SHEET_SVOD).getD [])
      "Добавлен сертификат" = Option.none :=
  ⟨rfl, rfl, rfl⟩

/-- C5 amended: a missing required SHEET aborts both reconcilers before
any mutation (the workbook is returned exactly as loaded), and in
`sync_master.py` a missing required column also aborts before any
mutation (the column checks precede every write).  In
`sync_xlsx.py`'s `sync_inside_workbook`, however, the derived boolean
headers are appended to СВОДНАЯ before the required-column checks, so on
the missing-required-column error path the target header row may already
have been extended — though only row 1 is touched (every data row is
unchanged) and the workbook is not uploaded on any error path. -/
theorem failfast_amended :
    (∀ wb : SyncXlsx.Wb, dictGet wb SyncXlsx.SHEET_BD = Option.none →
      SyncXlsx.sync_inside_workbook wb =
        (wb, Except.error "Source: sheet БД not found")) ∧
    (∀ wb : SyncXlsx.Wb, (dictGet wb SyncXlsx.SHEET_BD).isSome = true →
      dictGet wb SyncXlsx.SHEET_SVOD = Option.none →
      SyncXlsx.sync_inside_workbook wb =
        (wb, Except.error "Target: sheet СВОДНАЯ not found")) ∧
    (∀ wb : SyncXlsx.Wb,
      (dictGet wb SyncXlsx.SHEET_BD).isSome = true →
      (dictGet wb SyncXlsx.SHEET_SVOD).isSome = true →
      (SyncXlsx.missingBdColumns ((dictGet wb SyncXlsx.SHEET_BD).getD []) ≠ [] ∨
        SyncXlsx.missingSvodColumns (SyncXlsx.ensure_columns_at_end
          ((dictGet wb SyncXlsx.SHEET_SVOD).getD []) SyncXlsx.SVOD_BOOL_COLS) ≠ []) →
      (SyncXlsx.sync_inside_workbook wb).1 =
        dictSet wb SyncXlsx.SHEET_SVOD
          (SyncXlsx.ensure_columns_at_end
            ((dictGet wb SyncXlsx.SHEET_SVOD).getD []) SyncXlsx.SVOD_BOOL_COLS) ∧
      exceptIsOk (SyncXlsx.sync_inside_workbook wb).2 = false) ∧
    (∀ (ws : Ws) (needed : List String),
      (SyncXlsx.ensure_columns_at_end ws needed).drop 1 = ws.drop 1) ∧
    (∀ (src_ws tgt_ws : Ws) (e : String),
      SyncMaster.get_col_indexes (SyncMaster.sheet_headers src_ws)
        SyncMaster.CONFIG_columns = Except.error e →
      SyncMaster.master_core src_ws tgt_ws = Except.error e) ∧
    (∀ (src_ws tgt_ws : Ws) (idx : List Nat) (e : String),
      SyncMaster.get_col_indexes (SyncMaster.sheet_headers src_ws)
        SyncMaster.CONFIG_columns = Except.ok idx →
      SyncMaster.get_col_indexes (SyncMaster.sheet_headers tgt_ws)
        SyncMaster.CONFIG_columns = Except.error e →
      SyncMaster.master_core src_ws tgt_ws = Except.error e) ∧
    (∀ src_wb tgt_wb : SyncXlsx.Wb,
      dictGet src_wb SyncMaster.sourceSheet = Option.none →
      SyncMaster.master_main src_wb tgt_wb =
        Except.error "Нет листа БД в источнике") ∧
    (∀ src_wb tgt_wb : SyncXlsx.Wb,
      (dictGet src_wb SyncMaster.sourceSheet).isSome = true →
      dictGet tgt_wb SyncMaster.targetSheet = Option.none →
      SyncMaster.master_main src_wb tgt_wb =
        Except.error "Нет листа СВОДНАЯ в цели") := by
  refine ⟨?_, ?_, ?_, ensure_columns_drop, ?_, ?_, ?_, ?_⟩
  · intro wb h
    unfold SyncXlsx.sync_inside_workbook
    rw [h]
    rfl
  · intro wb h1 h2
    have hno1 : (dictGet wb SyncXlsx.SHEET_BD).isNone = false := by
      rcases hh : dictGet wb SyncXlsx.SHEET_BD with _ | x
      · rw [hh] at h1
        simp at h1
      · rfl
    unfold SyncXlsx.sync_inside_workbook
    rw [hno1, h2]
    rfl
  · intro wb h1 h2 h3
    have hno1 : (dictGet wb SyncXlsx.SHEET_BD).isNone = false := by
      rcases hh : dictGet wb SyncXlsx.SHEET_BD with _ | x
      · rw [hh] at h1
        simp at h1
      · rfl
    have hno2 : (dictGet wb SyncXlsx.SHEET_SVOD).isNone = false := by
      rcases hh : dictGet wb SyncXlsx.SHEET_SVOD with _ | x
      · rw [hh] at h2
        simp at h2
      · rfl
    unfold SyncXlsx.sync_inside_workbook
    rw [hno1, hno2]
    rw [if_neg (by simp), if_neg (by simp)]
    by_cases hbd : SyncXlsx.missingBdColumns ((dictGet wb SyncXlsx.SHEET_BD).getD []) ≠ []
    · rw [if_pos hbd]
      exact ⟨rfl, rfl⟩
    · rw [if_neg hbd]
      rcases h3 with h3 | h3
      · exact absurd h3 hbd
      · rw [if_pos h3]
        exact ⟨rfl, rfl⟩
  · intro src_ws tgt_ws e h
    simp only [SyncMaster.master_core]
    rw [h]
  · intro src_ws tgt_ws idx e h1 h2
    simp only [SyncMaster.master_core]
    rw [h1, h2]
  · intro src_wb tgt_wb h
    unfold SyncMaster.master_main
    rw [h]
    rfl
  · intro src_wb tgt_wb h1 h2
    have hno1 : (dictGet src_wb SyncMaster.sourceSheet).isNone = false := by
      rcases hh : dictGet src_wb SyncMaster.sourceSheet with _ | x
      · rw [hh] at h1
        simp at h1
      · rfl
    unfold SyncMaster.master_main
    rw [hno1, h2]
    rfl

/-- Witness for C5's amended claim on the concrete workbook with missing
required columns. -/
theorem failfast_amended_witness :
    (SyncXlsx.sync_inside_workbook wbMissing).1 =
      dictSet wbMissing SyncXlsx.SHEET_SVOD
        (SyncXlsx.ensure_columns_at_end
          ((dictGet wbMissing SyncXlsx.SHEET_SVOD).getD [])
          SyncXlsx.SVOD_BOOL_COLS) ∧
    exceptIsOk (SyncXlsx.sync_inside_workbook wbMissing).2 = false :=
  failfast_amended.2.2.1 wbMissing rfl rfl (Or.inr (by decide))

/-- Witness for C3 at a concrete sheet: agent `B` is absent from the
source set and its row is deleted; agent `A` survives with its data. -/
theorem delete_missing_agents_spec_witness :
    (SyncXlsx.delete_missing_agents
        [hdrSvod, svodRowA,
         [Val.str "Y", Val.str "N", Val.str "(9)", Val.str "B", Val.str "H",
          Val.str "P", Val.int 0, Val.int 0, Val.int 0]] 4 ["A"]).1 =
      [hdrSvod, svodRowA] ∧
    ([Val.str "Y", Val.str "N", Val.str "(9)", Val.str "B", Val.str "H",
      Val.str "P", Val.int 0, Val.int 0, Val.int 0] ∈
        ([svodRowA,
          [Val.str "Y", Val.str "N", Val.str "(9)", Val.str "B", Val.str "H",
           Val.str "P", Val.int 0, Val.int 0, Val.int 0]] :
          List (List Val))) ∧
    svodRowA ∈ (SyncXlsx.delete_missing_agents
        [hdrSvod, svodRowA,
         [Val.str "Y", Val.str "N", Val.str "(9)", Val.str "B", Val.str "H",
          Val.str "P", Val.int 0, Val.int 0, Val.int 0]] 4 ["A"]).1.tail := by
  refine ⟨?_, by decide, ?_⟩
  · have := (delete_missing_agents_spec hdrSvod
      [svodRowA,
       [Val.str "Y", Val.str "N", Val.str "(9)", Val.str "B", Val.str "H",
        Val.str "P", Val.int 0, Val.int 0, Val.int 0]] 4 ["A"]).1
    rw [this]
    decide
  · exact (delete_missing_agents_spec hdrSvod
      [svodRowA,
       [Val.str "Y", Val.str "N", Val.str "(9)", Val.str "B", Val.str "H",
        Val.str "P", Val.int 0, Val.int 0, Val.int 0]] 4 ["A"]).2.2.2.1
      svodRowA (by decide) (by decide)

/-! ## C9: derived boolean column values -/

theorem padTo_length (l : List α) (n : Nat) (d : α) :
    (padTo l n d).length = max l.length n := by
  unfold padTo
  rw [List.length_append, List.length_replicate]
  omega

theorem getD_padTo (l : List α) (n i : Nat) (d : α) :
    (padTo l n d).getD i d = l.getD i d := by
  unfold padTo
  by_cases hi : i < l.length
  · rw [List.getD_eq_getElem?_getD, List.getElem?_append_left hi,
      ← List.getD_eq_getElem?_getD]
  · push_neg at hi
    rw [List.getD_eq_getElem?_getD, List.getElem?_append_right hi,
      List.getElem?_replicate, List.getD_eq_default l d hi]
    by_cases h2 : i - l.length < n - l.length
    · rw [if_pos h2]
      rfl
    · rw [if_neg h2]
      rfl

theorem setCell_getD_row (w : Ws) (r c : Nat) (hr : 1 ≤ r) (v : Val) :
    (setCell w r c v).getD (r - 1) [] =
      (padTo ((padTo w r ([] : List Val)).getD (r - 1) []) c Val.none).set
        (c - 1) v := by
  have hlen : r - 1 < (padTo w r ([] : List Val)).length := by
    rw [padTo_length]
    omega
  simp only [setCell]
  rw [List.getD_eq_getElem?_getD, List.getElem?_set_self hlen]
  rfl

theorem setCellRow_getD_self (row : List Val) (c : Nat) (hc : 1 ≤ c) (v : Val) :
    ((padTo row c Val.none).set (c - 1) v).getD (c - 1) Val.none = v := by
  have hlen : c - 1 < (padTo row c Val.none).length := by
    rw [padTo_length]
    omega
  rw [List.getD_eq_getElem?_getD, List.getElem?_set_self hlen]
  rfl

theorem setCellRow_getD_ne (row : List Val) (c : Nat) (v : Val) (c2 : Nat)
    (h : c2 - 1 ≠ c - 1) :
    ((padTo row c Val.none).set (c - 1) v).getD (c2 - 1) Val.none =
      row.getD (c2 - 1) Val.none := by
  rw [List.getD_eq_getElem?_getD, List.getElem?_set_ne (by omega),
    ← List.getD_eq_getElem?_getD, getD_padTo]

theorem setCell_cellValue (w : Ws) (r c : Nat) (hr : 1 ≤ r) (hc : 1 ≤ c)
    (v : Val) : cellValue (setCell w r c v) r c = v := by
  unfold cellValue
  rw [setCell_getD_row w r c hr v,
    setCellRow_getD_self ((padTo w r ([] : List Val)).getD (r - 1) []) c hc v]

theorem setCell_cellValue_other (w : Ws) (r c : Nat) (hr : 1 ≤ r) (hc : 1 ≤ c)
    (v : Val) (r2 c2 : Nat) (h : r2 - 1 ≠ r - 1 ∨ c2 - 1 ≠ c - 1) :
    cellValue (setCell w r c v) r2 c2 = cellValue w r2 c2 := by
  rcases h with h | h
  · unfold cellValue
    rw [setCell_rowAt w r c v (r2 - 1) h]
  · by_cases hidx : r2 - 1 = r - 1
    · unfold cellValue
      rw [hidx, setCell_getD_row w r c hr v,
        setCellRow_getD_ne ((padTo w r ([] : List Val)).getD (r - 1) []) c v c2 h,
        getD_pad]
    · unfold cellValue
      rw [setCell_rowAt w r c v (r2 - 1) hidx]

theorem normalizeCellStep_self (w : Ws) (r c : Nat) (hr : 1 ≤ r) (hc : 1 ≤ c) :
    cellValue (SyncXlsx.normalizeCellStep w r c) r c =
      (if is_empty_cell (cellValue w r c) = true then cellValue w r c
       else
        match normalize_bool_to_01 (cellValue w r c) with
        | Option.none => cellValue w r c
        | some n => Val.int n) := by
  simp only [SyncXlsx.normalizeCellStep]
  by_cases he : is_empty_cell (cellValue w r c) = true
  · rw [if_pos he, if_pos he]
  · rw [if_neg he, if_neg he]
    cases hn : normalize_bool_to_01 (cellValue w r c) with
    | none => rfl
    | some n => exact setCell_cellValue w r c hr hc (Val.int n)

theorem normalizeCellStep_other (w : Ws) (r c : Nat) (hr : 1 ≤ r) (hc : 1 ≤ c)
    (r2 c2 : Nat) (h : r2 - 1 ≠ r - 1 ∨ c2 - 1 ≠ c - 1) :
    cellValue (SyncXlsx.normalizeCellStep w r c) r2 c2 = cellValue w r2 c2 := by
  simp only [SyncXlsx.normalizeCellStep]
  by_cases he : is_empty_cell (cellValue w r c) = true
  · rw [if_pos he]
  · rw [if_neg he]
    cases hn : normalize_bool_to_01 (cellValue w r c) with
    | none => rfl
    | some n => exact setCell_cellValue_other w r c hr hc (Val.int n) r2 c2 h

theorem cellValue_congr (w : Ws) (r c r2 c2 : Nat) (h1 : r - 1 = r2 - 1)
    (h2 : c - 1 = c2 - 1) : cellValue w r c = cellValue w r2 c2 := by
  unfold cellValue
  rw [h1, h2]

theorem normalizeCellStep_ok (w : Ws) (orig : Val) (r c r2 c2 : Nat)
    (hr : 1 ≤ r) (hc : 1 ≤ c)
    (hP : boolCellOk orig (cellValue w r2 c2)) :
    boolCellOk orig (cellValue (SyncXlsx.normalizeCellStep w r c) r2 c2) := by
  by_cases hsame : r2 - 1 = r - 1 ∧ c2 - 1 = c - 1
  · rw [cellValue_congr _ r2 c2 r c hsame.1 hsame.2,
      normalizeCellStep_self w r c hr hc]
    by_cases he : is_empty_cell (cellValue w r c) = true
    · rw [if_pos he]
      rwa [cellValue_congr w r2 c2 r c hsame.1 hsame.2] at hP
    · rw [if_neg he]
      cases hn : normalize_bool_to_01 (cellValue w r c) with
      | none =>
        rwa [cellValue_congr w r2 c2 r c hsame.1 hsame.2] at hP
      | some n =>
        rcases normalize_bool_to_01_mem _ _ hn with rfl | rfl
        · exact Or.inl rfl
        · exact Or.inr (Or.inl rfl)
  · rw [normalizeCellStep_other w r c hr hc r2 c2 (by tauto)]
    exact hP

theorem normPass_inner_ok (orig : Val) (r2 c2 : Nat) :
    ∀ (rows : List Nat) (w : Ws) (c : Nat), 1 ≤ c → (∀ x ∈ rows, 1 ≤ x) →
      boolCellOk orig (cellValue w r2 c2) →
      boolCellOk orig (cellValue
        (rows.foldl (fun w2 r => SyncXlsx.normalizeCellStep w2 r c) w) r2 c2) := by
  intro rows
  induction rows with
  | nil => intro w c _ _ hP; exact hP
  | cons r t ih =>
    intro w c hc hge hP
    rw [List.foldl_cons]
    exact ih _ c hc (fun x hx => hge x (List.mem_cons.2 (Or.inr hx)))
      (normalizeCellStep_ok w orig r c r2 c2
        (hge r (List.mem_cons_self r t)) hc hP)

theorem normalizeBoolPass_ok (svCol : String → Nat) (L : Nat) (ws : Ws)
    (r2 c2 : Nat) (hcols : ∀ x ∈ SyncXlsx.SVOD_BOOL_COLS, 1 ≤ svCol x) :
    boolCellOk (cellValue ws r2 c2)
      (cellValue (SyncXlsx.normalizeBoolPass svCol L ws) r2 c2) := by
  unfold SyncXlsx.normalizeBoolPass
  have key : ∀ (cols : List String) (w : Ws),
      (∀ x ∈ cols, 1 ≤ svCol x) →
      boolCellOk (cellValue ws r2 c2) (cellValue w r2 c2) →
      boolCellOk (cellValue ws r2 c2) (cellValue
        (cols.foldl (fun w col =>
          (List.range' 2 (L - 1)).foldl
            (fun w2 r => SyncXlsx.normalizeCellStep w2 r (svCol col)) w) w) r2 c2) := by
    intro cols
    induction cols with
    | nil => intro w _ hP; exact hP
    | cons col t ih =>
      intro w hc hP
      rw [List.foldl_cons]
      refine ih _ (fun x hx => hc x (List.mem_cons.2 (Or.inr hx))) ?_
      refine normPass_inner_ok (cellValue ws r2 c2) r2 c2 _ w (svCol col)
        (hc col (List.mem_cons_self col t)) ?_ hP
      intro x hx
      have := (List.mem_range'_1.1 hx).1
      omega
  exact key SyncXlsx.SVOD_BOOL_COLS ws hcols (Or.inr (Or.inr (Or.inr rfl)))

theorem boolWrites_pres (svCol : String → Nat) (rr : Nat) (hrr : 1 ≤ rr) :
    ∀ (t : List String) (w : Ws) (cb : Nat), 1 ≤ cb →
      (∀ x ∈ t, 1 ≤ svCol x) → (∀ x ∈ t, svCol x ≠ cb) →
      cellValue (t.foldl (fun w2 col => setCell w2 rr (svCol col) (Val.int 0)) w)
        rr cb = cellValue w rr cb := by
  intro t
  induction t with
  | nil => intro w cb _ _ _; rfl
  | cons col t ih =>
    intro w cb hcb hge hne
    rw [List.foldl_cons,
      ih _ cb hcb (fun x hx => hge x (List.mem_cons.2 (Or.inr hx)))
        (fun x hx => hne x (List.mem_cons.2 (Or.inr hx)))]
    refine setCell_cellValue_other w rr (svCol col)
      hrr (hge col (List.mem_cons_self col t)) (Val.int 0) rr cb (Or.inr ?_)
    have h1 := hge col (List.mem_cons_self col t)
    have h2 := hne col (List.mem_cons_self col t)
    omega

theorem boolWrites_zero (svCol : String → Nat) (rr : Nat) (hrr : 1 ≤ rr) :
    ∀ (cols : List String) (w : Ws) (b : String), b ∈ cols →
      (∀ x ∈ cols, 1 ≤ svCol x) → (cols.map svCol).Nodup →
      cellValue (cols.foldl (fun w2 col => setCell w2 rr (svCol col) (Val.int 0)) w)
        rr (svCol b) = Val.int 0 := by
  intro cols
  induction cols with
  | nil => intro w b hb; exact absurd hb (List.not_mem_nil b)
  | cons col t ih =>
    intro w b hb hge hnd
    rw [List.map_cons, List.nodup_cons] at hnd
    rw [List.foldl_cons]
    by_cases hbt : b ∈ t
    · exact ih _ b hbt (fun x hx => hge x (List.mem_cons.2 (Or.inr hx))) hnd.2
    · have hbc : b = col := by
        rcases List.mem_cons.1 hb with h | h
        · exact h
        · exact absurd h hbt
      subst hbc
      rw [boolWrites_pres svCol rr hrr t _ (svCol b)
        (hge b (List.mem_cons_self b t))
        (fun x hx => hge x (List.mem_cons.2 (Or.inr hx))) ?_]
      · exact setCell_cellValue w rr (svCol b) hrr
          (hge b (List.mem_cons_self b t)) (Val.int 0)
      · intro x hx heqc
        exact hnd.1 (heqc ▸ List.mem_map_of_mem svCol hx)

/-- Counterexample for C9: after `sync_inside_workbook` completes
successfully on `wbJunk`, the derived boolean column
`Добавлен сертификат` (column 7) still holds the text `junk` in data row
2 (a row within the data range): the normalization pass leaves
unrecognisable non-empty values untouched, so a derived boolean cell can
hold a value other than 0, 1 or empty. -/
theorem bool_column_counterexample :
    cellValue ((dictGet (SyncXlsx.sync_inside_workbook wbJunk).1
      SyncXlsx.SHEET_SVOD).getD []) 2 7 = Val.str "junk" ∧
    headerLookup ((dictGet (SyncXlsx.sync_inside_workbook wbJunk).1
      SyncXlsx.SHEET_SVOD).getD []) "Добавлен сертификат" = some 7 ∧
    2 ≤ get_last_data_row ((dictGet (SyncXlsx.sync_inside_workbook wbJunk).1
      SyncXlsx.SHEET_SVOD).getD []) 4 2 ∧
    Val.str "junk" ≠ Val.int 0 ∧ Val.str "junk" ≠ Val.int 1 ∧
    is_empty_cell (Val.str "junk") = false ∧
    exceptIsOk (SyncXlsx.sync_inside_workbook wbJunk).2 = true := by
  refine ⟨rfl, rfl, by decide, by decide, by decide, rfl, rfl⟩

/-- C9 amended: every value the reconciliation WRITES into a derived
boolean column is 0 or 1 (the normalization pass writes only the
integers 0 and 1, and a freshly inserted row's boolean columns are all
initialised to the integer 0); after the pass each cell is 0, 1,
genuinely empty, or its pre-pass value unchanged, and a cell can keep a
non-empty unrecognisable value only because `normalize_bool_to_01` does
not recognise it (ambiguous text is never coerced and never cleared). -/
theorem bool_column_amended :
    (∀ (w : Ws) (r c : Nat), 1 ≤ r → 1 ≤ c →
      cellValue (SyncXlsx.normalizeCellStep w r c) r c = Val.int 0 ∨
      cellValue (SyncXlsx.normalizeCellStep w r c) r c = Val.int 1 ∨
      is_empty_cell (cellValue (SyncXlsx.normalizeCellStep w r c) r c) = true ∨
      (cellValue (SyncXlsx.normalizeCellStep w r c) r c = cellValue w r c ∧
        normalize_bool_to_01 (cellValue w r c) = Option.none)) ∧
    (∀ (svCol : String → Nat) (L : Nat) (ws : Ws) (r c : Nat),
      (∀ x ∈ SyncXlsx.SVOD_BOOL_COLS, 1 ≤ svCol x) →
      boolCellOk (cellValue ws r c)
        (cellValue (SyncXlsx.normalizeBoolPass svCol L ws) r c)) ∧
    (∀ (svCol : String → Nat) (existing : List (String × Nat))
      (st : SyncXlsx.UpsertState) (agent : String)
      (payload : List (String × String)) (b : String),
      dictGet existing agent = Option.none →
      b ∈ SyncXlsx.SVOD_BOOL_COLS →
      (∀ x ∈ SyncXlsx.SVOD_BOOL_COLS, 1 ≤ svCol x) →
      (SyncXlsx.SVOD_BOOL_COLS.map svCol).Nodup →
      1 ≤ st.append_row →
      cellValue (SyncXlsx.upsertStep svCol existing st (agent, payload)).ws
        st.append_row (svCol b) = Val.int 0) := by
  refine ⟨?_, fun svCol L ws r c h => normalizeBoolPass_ok svCol L ws r c h, ?_⟩
  · intro w r c hr hc
    rw [normalizeCellStep_self w r c hr hc]
    by_cases he : is_empty_cell (cellValue w r c) = true
    · rw [if_pos he]
      exact Or.inr (Or.inr (Or.inl he))
    · rw [if_neg he]
      cases hn : normalize_bool_to_01 (cellValue w r c) with
      | none => exact Or.inr (Or.inr (Or.inr ⟨rfl, rfl⟩))
      | some n =>
        rcases normalize_bool_to_01_mem _ _ hn with rfl | rfl
        · exact Or.inl rfl
        · exact Or.inr (Or.inl rfl)
  · intro svCol existing st agent payload b hget hb hge hnd hrr
    unfold SyncXlsx.upsertStep
    simp only [hget]
    exact boolWrites_zero svCol st.append_row hrr SyncXlsx.SVOD_BOOL_COLS _ b
      hb hge hnd

/-- Witness for C9's amended claim at a concrete cell: a cell holding an
unrecognisable text keeps it through the normalization step. -/
theorem bool_column_amended_witness :
    cellValue (SyncXlsx.normalizeCellStep [[], [Val.str "junk"]] 2 1) 2 1 =
        Val.int 0 ∨
      cellValue (SyncXlsx.normalizeCellStep [[], [Val.str "junk"]] 2 1) 2 1 =
        Val.int 1 ∨
      is_empty_cell
        (cellValue (SyncXlsx.normalizeCellStep [[], [Val.str "junk"]] 2 1) 2 1) =
        true ∨
      (cellValue (SyncXlsx.normalizeCellStep [[], [Val.str "junk"]] 2 1) 2 1 =
          cellValue [[], [Val.str "junk"]] 2 1 ∧
        normalize_bool_to_01 (cellValue [[], [Val.str "junk"]] 2 1) =
          Option.none) :=
  bool_column_amended.1 [[], [Val.str "junk"]] 2 1 (by decide) (by decide)

end Stoloto
